import Mathlib

/-!
# TaskFlow: the task registry and its command interpreter

A shallow embedding of `src/main.cpp`.

* `std::string` is `String`; the characters of an input line are handled as a `List Char`.
* `std::vector<Task>` is `List Task`, in vector order.
* `int` values are integers (`Int`) in the 32-bit range.  The extraction `iss >> id` checks
  the range, as the library does.  The increment `nextId++` wraps around in two's
  complement (`wrapInt32`): past `INT_MAX` the counter continues at `INT_MIN`, which is what
  the compiled program does (the overflow itself has no defined behaviour in C++).
* `std::time(nullptr)` is an input of the operation that reads the clock (`now`).
* Text written to `std::cout` is a list of `Out` events, one constructor per output statement
  of the source; colours are left out.
* `std::cin` is a stream over the characters that arrive before the end of input; the loop
  of `main` is run for a given number of iterations (`runLoop`, `main`).
-/

namespace TaskFlow

/-! ## Data model (`main.cpp` lines 20-92) -/

/-- The enumeration `Priority`. -/
inductive Priority where
  | LOW
  | MEDIUM
  | HIGH
  | CRITICAL
  deriving DecidableEq, Repr

/-- The enumeration `Status`. -/
inductive Status where
  | ACTIVE
  | COMPLETED
  | ARCHIVED
  deriving DecidableEq, Repr

/-- The class `Task`: its eight data members, in declaration order. -/
structure Task where
  id : Int
  title : String
  description : String
  priority : Priority
  status : Status
  tags : List String
  created : Int
  deadline : Int
  deriving DecidableEq, Repr

/-- The constructor `Task(int id, const std::string& title, Priority priority)`:
status `ACTIVE`, `created` read from the clock, `deadline` 0, `description` and `tags`
default-constructed (empty). -/
def Task.mkTask (id : Int) (title : String) (priority : Priority) (now : Int) : Task :=
  { id := id, title := title, description := "", priority := priority,
    status := Status.ACTIVE, tags := [], created := now, deadline := 0 }

/-- The member `Task::getId`. -/
def Task.getId (t : Task) : Int := t.id

/-- The member `Task::getTitle`. -/
def Task.getTitle (t : Task) : String := t.title

/-- The member `Task::getPriority`. -/
def Task.getPriority (t : Task) : Priority := t.priority

/-- The member `Task::getStatus`. -/
def Task.getStatus (t : Task) : Status := t.status

/-- The member `Task::setStatus`. -/
def Task.setStatus (t : Task) (newStatus : Status) : Task := { t with status := newStatus }

/-- The member `Task::getPriorityString`. -/
def Task.getPriorityString (t : Task) : String :=
  match t.priority with
  | Priority.LOW => "Low"
  | Priority.MEDIUM => "Medium"
  | Priority.HIGH => "High"
  | Priority.CRITICAL => "Critical"

/-! ## Output events -/

/-- One event per statement that writes to `std::cout`. -/
inductive Out where
  /-- `"✓ Task added successfully!"` (`addTask`). -/
  | taskAdded
  /-- `"No tasks found."` (`listTasks`). -/
  | noTasksFound
  /-- `"\n=== Task List ==="` (`listTasks`). -/
  | taskListHeader
  /-- A call `task.display()` (`listTasks`). -/
  | display (t : Task)
  /-- A lone `std::endl` closing a listing or the statistics. -/
  | blankLine
  /-- `"✓ Task #id completed!"` (`completeTask`). -/
  | taskCompleted (id : Int)
  /-- `"✗ Task #id not found."` (`completeTask`, `deleteTask`). -/
  | taskNotFound (id : Int)
  /-- `"✓ Task #id deleted!"` (`deleteTask`). -/
  | taskDeleted (id : Int)
  /-- `"\n=== Statistics ==="` (`showStats`). -/
  | statsHeader
  /-- `"Total tasks: " << tasks.size()`. -/
  | totalTasks (n : Nat)
  /-- `"Completed: " << completed`. -/
  | completedTasks (n : Int)
  /-- `"Active: " << active`. -/
  | activeTasks (n : Int)
  /-- `"Completion rate: " << (completed * 100.0 / tasks.size()) << "%"`: the event carries
  the exact value of the quotient; the rounding to one fractional digit is done by the
  stream. -/
  | completionRate (r : ℚ)
  /-- `"Welcome to TaskFlow!"` (`main`). -/
  | welcome
  /-- The prompt `"taskflow> "` (`main`). -/
  | prompt
  /-- `"Goodbye!"` (`main`). -/
  | goodbye
  /-- A call `printHelp()` (`main`). -/
  | help
  /-- `"Please provide a task title."` (`main`). -/
  | provideTitle
  /-- `"Please provide a task ID."` (`main`). -/
  | provideId
  /-- `"Unknown command. Type 'help' for available commands."` (`main`). -/
  | unknownCommand
  deriving DecidableEq

/-! ## The registry (`main.cpp` lines 94-163) -/

/-- The class `TaskManager`: the vector `tasks` and the counter `nextId`. -/
structure TaskManager where
  tasks : List Task
  nextId : Int
  deriving DecidableEq, Repr

/-- The constructor `TaskManager() : nextId(1)`: no task, counter 1. -/
def TaskManager.init : TaskManager := { tasks := [], nextId := 1 }

/-- The value that a 32-bit two's complement `int` holds for the mathematical result `x`:
`x` itself inside `-2^31 .. 2^31 - 1`, and `x` reduced modulo `2^32` into that range
otherwise. -/
def wrapInt32 (x : Int) : Int := (x + 2147483648) % 4294967296 - 2147483648

/-- The member `addTask`: `tasks.emplace_back(nextId++, title, priority)`, then the
confirmation.  The new task gets the old value of the `int` counter, and the counter is
incremented as an `int`. -/
def TaskManager.addTask (m : TaskManager) (title : String) (priority : Priority) (now : Int) :
    TaskManager × List Out :=
  ({ tasks := m.tasks ++ [Task.mkTask m.nextId title priority now],
     nextId := wrapInt32 (m.nextId + 1) },
   [Out.taskAdded])

/-- The loop of `listTasks` over `tasks`: a task is displayed when its status is the filter or
the filter is `ARCHIVED`. -/
def listLoop (filterStatus : Status) : List Task → List Out
  | [] => []
  | task :: rest =>
    if task.getStatus = filterStatus ∨ filterStatus = Status.ARCHIVED then
      Out.display task :: listLoop filterStatus rest
    else
      listLoop filterStatus rest

/-- The member `listTasks`. -/
def TaskManager.listTasks (m : TaskManager) (filterStatus : Status) : List Out :=
  if m.tasks.isEmpty then
    [Out.noTasksFound]
  else
    [Out.taskListHeader] ++ listLoop filterStatus m.tasks ++ [Out.blankLine]

/-- The loop of `completeTask`: the first task whose id is `id` gets status `COMPLETED` and
the loop returns; `none` when the loop runs to the end of the vector. -/
def completeLoop (id : Int) : List Task → Option (List Task)
  | [] => none
  | task :: rest =>
    if task.getId = id then
      some (task.setStatus Status.COMPLETED :: rest)
    else
      (completeLoop id rest).map (fun r => task :: r)

/-- The member `completeTask`. -/
def TaskManager.completeTask (m : TaskManager) (id : Int) : TaskManager × List Out :=
  match completeLoop id m.tasks with
  | some ts => ({ m with tasks := ts }, [Out.taskCompleted id])
  | none => (m, [Out.taskNotFound id])

/-- The algorithm `std::remove_if` on the whole vector: the elements for which the predicate
is false are moved to the front in their order; the result is the range before the returned
iterator. -/
def remove_if (p : Task → Bool) : List Task → List Task
  | [] => []
  | t :: rest => if p t then remove_if p rest else t :: remove_if p rest

/-- The member `deleteTask`: `it` is the end of the kept range; when it is not the end of
the vector the tail is erased and the deletion confirmed, otherwise the vector is as
`remove_if` left it and the id is reported as not found. -/
def TaskManager.deleteTask (m : TaskManager) (id : Int) : TaskManager × List Out :=
  let kept := remove_if (fun t => decide (t.getId = id)) m.tasks
  if kept.length ≠ m.tasks.length then
    ({ m with tasks := kept }, [Out.taskDeleted id])
  else
    ({ m with tasks := kept }, [Out.taskNotFound id])

/-- The counting loop of `showStats`: the pair `(active, completed)`. -/
def statsLoop : List Task → Int × Int → Int × Int
  | [], acc => acc
  | task :: rest, (active, completed) =>
    if task.getStatus = Status.ACTIVE then statsLoop rest (active + 1, completed)
    else if task.getStatus = Status.COMPLETED then statsLoop rest (active, completed + 1)
    else statsLoop rest (active, completed)

/-- The member `showStats`. -/
def TaskManager.showStats (m : TaskManager) : List Out :=
  let counts := statsLoop m.tasks (0, 0)
  [Out.statsHeader, Out.totalTasks m.tasks.length, Out.completedTasks counts.2,
   Out.activeTasks counts.1]
    ++ (if m.tasks.length > 0 then
          [Out.completionRate ((counts.2 : ℚ) * 100 / (m.tasks.length : ℚ))]
        else [])
    ++ [Out.blankLine]

/-- The tasks on which a piece of output called `display()`, in output order. -/
def displayedTasks : List Out → List Task
  | [] => []
  | Out.display t :: rest => t :: displayedTasks rest
  | _ :: rest => displayedTasks rest

/-- Every task is `ACTIVE` or `COMPLETED`. -/
def statusesSet (m : TaskManager) : Prop :=
  ∀ t ∈ m.tasks, t.status = Status.ACTIVE ∨ t.status = Status.COMPLETED

/-- The ids along the vector are strictly ascending, each is at least 1 and below the
counter, and the counter is at least 1. -/
def idsAscending (m : TaskManager) : Prop :=
  (m.tasks.map Task.id).Pairwise (fun a b => a < b) ∧
  (∀ i ∈ m.tasks.map Task.id, 1 ≤ i ∧ i < m.nextId) ∧ 1 ≤ m.nextId

/-! ## Sequences of registry calls -/

/-- A call of a public member of `TaskManager`, with its arguments. -/
inductive Op where
  | addTask (title : String) (priority : Priority) (now : Int)
  | listTasks (filterStatus : Status)
  | completeTask (id : Int)
  | deleteTask (id : Int)
  | showStats
  deriving DecidableEq

/-- The registry and the output of one call. -/
def TaskManager.call (m : TaskManager) : Op → TaskManager × List Out
  | Op.addTask title priority now => m.addTask title priority now
  | Op.listTasks filterStatus => (m, m.listTasks filterStatus)
  | Op.completeTask id => m.completeTask id
  | Op.deleteTask id => m.deleteTask id
  | Op.showStats => (m, m.showStats)

/-- The registry after a sequence of calls, made in order. -/
def runOps (m : TaskManager) : List Op → TaskManager
  | [] => m
  | op :: rest => runOps (m.call op).1 rest

/-- The number of `addTask` calls in a sequence. -/
def countAdds : List Op → Nat
  | [] => 0
  | Op.addTask _ _ _ :: rest => countAdds rest + 1
  | _ :: rest => countAdds rest

/-- The registry after `n` additions, as long as the counter has not wrapped: the ids
along the vector are strictly ascending and lie in `1 .. n`, there are at most `n` tasks,
and the counter is the `int` value of `n + 1`. -/
def idsUpTo (m : TaskManager) (n : Nat) : Prop :=
  (m.tasks.map Task.id).Pairwise (fun a b => a < b) ∧
  (∀ i ∈ m.tasks.map Task.id, 1 ≤ i ∧ i ≤ (n : Int)) ∧
  m.tasks.length ≤ n ∧
  m.nextId = wrapInt32 ((n : Int) + 1)

/-- A call sequence of `n` rounds, round `k` adding a task and deleting the task with id
`k`; on the fresh registry each round deletes the task it added. -/
def churn : Nat → List Op
  | 0 => []
  | n + 1 => churn n ++ [Op.addTask "x" Priority.MEDIUM 0, Op.deleteTask ((n : Int) + 1)]

/-! ## The input stream of one line (`std::istringstream`) -/

/-- The classification `std::isspace` of the "C" locale, which the stream uses: space,
`\t`, `\n`, `\v`, `\f`, `\r`. -/
def isspace (c : Char) : Bool :=
  c = ' ' || c = '\t' || c = '\n' || c = Char.ofNat 11 || c = Char.ofNat 12 || c = '\r'

/-- An input string stream: the characters not yet read and the state bits `eofbit` and
`failbit` (`badbit` is never set on a string stream). -/
structure IStringStream where
  buf : List Char
  eofbit : Bool
  failbit : Bool
  deriving DecidableEq, Repr

/-- The constructor `std::istringstream iss(command)`. -/
def IStringStream.open (command : String) : IStringStream :=
  { buf := command.toList, eofbit := false, failbit := false }

/-- The member `good()`: no state bit is set. -/
def IStringStream.good (s : IStringStream) : Bool := !s.eofbit && !s.failbit

/-- The conversion to `bool` (`!fail()`), as in `if (iss >> id)`. -/
def IStringStream.toBool (s : IStringStream) : Bool := !s.failbit

/-- The `sentry` that every extraction constructs first.  A stream that is not `good()` gets
`failbit` and the sentry fails.  Otherwise, unless `noskipws`, leading whitespace is
discarded, and reaching the end while doing so sets `eofbit` and `failbit` and fails. -/
def sentry (s : IStringStream) (noskipws : Bool) : IStringStream × Bool :=
  if !s.good then ({ s with failbit := true }, false)
  else if noskipws then (s, true)
  else
    match s.buf.dropWhile isspace with
    | [] => ({ buf := [], eofbit := true, failbit := true }, false)
    | c :: r => ({ s with buf := c :: r }, true)

/-- The extraction `iss >> str` into a `std::string`: after the sentry, `str` is erased and
receives the characters up to the next whitespace or the end (`eofbit` at the end,
`failbit` when nothing was extracted).  When the sentry fails `str` keeps its value. -/
def extractString (s : IStringStream) (str : String) : IStringStream × String :=
  match sentry s false with
  | (s1, false) => (s1, str)
  | (s1, true) =>
    let word := s1.buf.takeWhile (fun c => !isspace c)
    let r := s1.buf.dropWhile (fun c => !isspace c)
    ({ buf := r, eofbit := r.isEmpty, failbit := word.isEmpty }, String.mk word)

/-- The manipulator `iss >> std::ws`: a sentry without skipping, then whitespace is
discarded; reaching the end sets `eofbit` only. -/
def ws (s : IStringStream) : IStringStream :=
  match sentry s true with
  | (s1, false) => s1
  | (s1, true) =>
    match s1.buf.dropWhile isspace with
    | [] => { s1 with buf := [], eofbit := true }
    | c :: r => { s1 with buf := c :: r }

/-- The call `std::getline(iss, str)`: a sentry without skipping; then `str` is erased and
receives the characters up to a newline, which is discarded, or up to the end (`eofbit`;
and `failbit` when nothing at all was extracted).  When the sentry fails `str` keeps its
value. -/
def getline (s : IStringStream) (str : String) : IStringStream × String :=
  match sentry s true with
  | (s1, false) => (s1, str)
  | (s1, true) =>
    let line := s1.buf.takeWhile (fun c => c != '\n')
    match s1.buf.dropWhile (fun c => c != '\n') with
    | [] => ({ buf := [], eofbit := true, failbit := line.isEmpty }, String.mk line)
    | _ :: r => ({ s1 with buf := r }, String.mk line)

/-- The largest `int`. -/
def INT_MAX : Int := 2147483647

/-- The smallest `int`. -/
def INT_MIN : Int := -2147483648

/-- The value of a run of decimal digits. -/
def digitsValue (ds : List Char) : Int :=
  ds.foldl (fun acc c => acc * 10 + ((c.toNat : Int) - 48)) 0

/-- The extraction `iss >> id` into an `int` (decimal base, "C" locale): after the sentry,
an optional sign and the longest run of decimal digits are read.  Without a digit the value
is 0 and `failbit` is set; a value outside the range of `int` is replaced by the nearest
bound and `failbit` is set; `eofbit` is set when the end was reached.  When the sentry fails
the variable keeps its value. -/
def extractInt (s : IStringStream) (v : Int) : IStringStream × Int :=
  match sentry s false with
  | (s1, false) => (s1, v)
  | (s1, true) =>
    let negative := s1.buf.head? = some '-'
    let body := if s1.buf.head? = some '-' ∨ s1.buf.head? = some '+' then s1.buf.tail else s1.buf
    let digits := body.takeWhile Char.isDigit
    let r := body.dropWhile Char.isDigit
    let value := if negative then - digitsValue digits else digitsValue digits
    if digits.isEmpty then
      ({ buf := r, eofbit := r.isEmpty, failbit := true }, 0)
    else if value > INT_MAX then
      ({ buf := r, eofbit := r.isEmpty, failbit := true }, INT_MAX)
    else if value < INT_MIN then
      ({ buf := r, eofbit := r.isEmpty, failbit := true }, INT_MIN)
    else
      ({ buf := r, eofbit := r.isEmpty, failbit := false }, value)

/-- The integer that a sign (empty, `+` or `-`) and a run of decimal digits denote. -/
def signedValue (sign digits : List Char) : Int :=
  if sign = ['-'] then - digitsValue digits else digitsValue digits

/-! ## The command loop (`main.cpp` lines 185-230) -/

/-- The body of the `while (true)` loop of `main` from the test `command.empty()` on, for a
line `command` that `std::getline(std::cin, command)` delivered: the registry afterwards,
the output, and whether the loop was left by `break`.  The local `id` of the `complete` and
`delete` branches is uninitialised in the source and read only after a successful
extraction; it enters the extraction as 0. -/
def loopBody (now : Int) (manager : TaskManager) (command : String) :
    TaskManager × List Out × Bool :=
  if command = "" then (manager, [], false)
  else
    let r := extractString (IStringStream.open command) ""
    let iss := r.1
    let cmd := r.2
    if cmd = "exit" ∨ cmd = "quit" then (manager, [Out.goodbye], true)
    else if cmd = "help" then (manager, [Out.help], false)
    else if cmd = "add" then
      let title := (getline (ws iss) "").2
      if title ≠ "" then
        let a := manager.addTask title Priority.MEDIUM now
        (a.1, a.2, false)
      else (manager, [Out.provideTitle], false)
    else if cmd = "list" then (manager, manager.listTasks Status.ACTIVE, false)
    else if cmd = "complete" then
      let e := extractInt iss 0
      if e.1.toBool then
        let c := manager.completeTask e.2
        (c.1, c.2, false)
      else (manager, [Out.provideId], false)
    else if cmd = "delete" then
      let e := extractInt iss 0
      if e.1.toBool then
        let d := manager.deleteTask e.2
        (d.1, d.2, false)
      else (manager, [Out.provideId], false)
    else if cmd = "stats" then (manager, manager.showStats, false)
    else (manager, [Out.unknownCommand], false)

/-- The registry after the loop body has run on a sequence of lines, each with the clock
reading of its iteration; the lines after an `exit` or `quit` are not processed. -/
def runLines (m : TaskManager) : List (Int × String) → TaskManager
  | [] => m
  | (now, command) :: rest =>
    let r := loopBody now m command
    if r.2.2 then r.1 else runLines r.1 rest

/-! ## `main` and standard input (`main.cpp` lines 178-233) -/

/-- Standard input as a stream over the characters that arrive before the end of input.
`std::cin` is a `std::istream`: it has the state bits of a stream, and `std::getline` on it
is the function `getline` above. -/
def stdinOf (input : List Char) : IStringStream :=
  { buf := input, eofbit := false, failbit := false }

/-- The variables of `main` that live across the iterations of its loop: `std::cin`,
`manager`, and `command`, which is declared before the loop. -/
structure MainState where
  cin : IStringStream
  manager : TaskManager
  command : String
  deriving DecidableEq, Repr

/-- The variables when the loop is entered: fresh registry, empty `command`. -/
def MainState.start (input : List Char) : MainState :=
  { cin := stdinOf input, manager := TaskManager.init, command := "" }

/-- One iteration of `while (true)`: the prompt; `std::getline(std::cin, command)`, whose
result the source does not test; then the rest of the body on `command`.  The result is the
variables afterwards, the output, and whether the loop was left by `break`. -/
def iteration (now : Int) (s : MainState) : MainState × List Out × Bool :=
  let g := getline s.cin s.command
  let r := loopBody now s.manager g.2
  ({ cin := g.1, manager := r.1, command := g.2 }, Out.prompt :: r.2.1, r.2.2)

/-- The loop run for at most `fuel` iterations from iteration number `i`, with `clock j`
the clock reading in iteration `j`: the variables reached, the output, and whether the loop
was left by `break` within these iterations. -/
def runLoop (clock : Nat → Int) : Nat → Nat → MainState → MainState × List Out × Bool
  | 0, _, s => (s, [], false)
  | fuel + 1, i, s =>
    let r := iteration (clock i) s
    if r.2.2 then r
    else
      let q := runLoop clock fuel (i + 1) r.1
      (q.1, r.2.1 ++ q.2.1, q.2.2)

/-- The function `main` on an input, observed for at most `fuel` iterations of its loop:
the return value, `some 0` when the loop was left within these iterations and `none` when
it is still running after them, and the output so far. -/
def main (clock : Nat → Int) (fuel : Nat) (input : List Char) : Option Int × List Out :=
  let r := runLoop clock fuel 0 (MainState.start input)
  (if r.2.2 then some 0 else none, [Out.welcome, Out.help] ++ r.2.1)

/-! ## Auxiliary facts about the registry -/

theorem remove_if_eq_filter (p : Task → Bool) (l : List Task) :
    remove_if p l = l.filter (fun t => !p t) := by
  induction l with
  | nil => rfl
  | cons t rest ih =>
    by_cases h : p t = true
    · simp [remove_if, h, ih]
    · simp [remove_if, h, ih]

theorem remove_if_length_le (p : Task → Bool) (l : List Task) :
    (remove_if p l).length ≤ l.length := by
  rw [remove_if_eq_filter]
  exact List.length_filter_le _ _

theorem remove_if_of_none (p : Task → Bool) (l : List Task) (h : ∀ t ∈ l, p t = false) :
    remove_if p l = l := by
  rw [remove_if_eq_filter]
  apply List.filter_eq_self.mpr
  intro t ht
  simp [h t ht]

theorem remove_if_length_lt (p : Task → Bool) (l : List Task) (t : Task) (ht : t ∈ l)
    (hp : p t = true) : (remove_if p l).length < l.length := by
  induction l with
  | nil => cases ht
  | cons u rest ih =>
    by_cases hu : p u = true
    · have := remove_if_length_le p rest
      simp only [remove_if, hu, if_true, List.length_cons]
      omega
    · have hne : t ≠ u := fun e => hu (e ▸ hp)
      have hmem : t ∈ rest := by
        cases ht with
        | head => exact absurd rfl hne
        | tail _ h => exact h
      have := ih hmem
      simp only [remove_if, hu, List.length_cons]
      simpa using this

theorem completeLoop_none (id : Int) (l : List Task) (h : ∀ t ∈ l, t.id ≠ id) :
    completeLoop id l = none := by
  induction l with
  | nil => rfl
  | cons t rest ih =>
    have ht : t.id ≠ id := h t (List.mem_cons_self _ _)
    have hr : ∀ u ∈ rest, u.id ≠ id := fun u hu => h u (List.mem_cons_of_mem _ hu)
    simp [completeLoop, Task.getId, ht, ih hr]

theorem completeLoop_some (id : Int) (l : List Task) (h : ∃ t ∈ l, t.id = id) :
    ∃ pre t post, l = pre ++ t :: post ∧ (∀ u ∈ pre, u.id ≠ id) ∧ t.id = id ∧
      completeLoop id l = some (pre ++ { t with status := Status.COMPLETED } :: post) := by
  induction l with
  | nil =>
    obtain ⟨t, ht, _⟩ := h
    cases ht
  | cons u rest ih =>
    by_cases hu : u.id = id
    · refine ⟨[], u, rest, rfl, ?_, hu, ?_⟩
      · intro v hv
        cases hv
      · simp [completeLoop, Task.getId, Task.setStatus, hu]
    · have hrest : ∃ t ∈ rest, t.id = id := by
        obtain ⟨t, ht, hid⟩ := h
        cases ht with
        | head => exact absurd hid hu
        | tail _ hm => exact ⟨t, hm, hid⟩
      obtain ⟨pre, t, post, hl, hpre, hid, hc⟩ := ih hrest
      refine ⟨u :: pre, t, post, ?_, ?_, hid, ?_⟩
      · simp [hl]
      · intro v hv
        cases hv with
        | head => exact hu
        | tail _ hm => exact hpre v hm
      · simp [completeLoop, Task.getId, hu, hc]

theorem runOps_append (m : TaskManager) (a b : List Op) :
    runOps m (a ++ b) = runOps (runOps m a) b := by
  induction a generalizing m with
  | nil => rfl
  | cons op rest ih => simp [runOps, ih]

theorem completeTask_nextId (m : TaskManager) (id : Int) :
    (m.completeTask id).1.nextId = m.nextId := by
  unfold TaskManager.completeTask
  cases completeLoop id m.tasks <;> rfl

theorem deleteTask_nextId (m : TaskManager) (id : Int) :
    (m.deleteTask id).1.nextId = m.nextId := by
  unfold TaskManager.deleteTask
  dsimp only
  split <;> rfl

theorem deleteTask_tasks (m : TaskManager) (id : Int) :
    (m.deleteTask id).1.tasks = m.tasks.filter (fun t => decide (t.id ≠ id)) := by
  unfold TaskManager.deleteTask
  dsimp only
  have h : remove_if (fun t => decide (t.getId = id)) m.tasks
      = m.tasks.filter (fun t => decide (t.id ≠ id)) := by
    rw [remove_if_eq_filter]
    congr 1
    funext t
    simp [Task.getId]
  split <;> exact h

theorem countAdds_cons (op : Op) (rest : List Op) :
    countAdds (op :: rest) = countAdds [op] + countAdds rest := by
  cases op <;> simp [countAdds, Nat.add_comm]

/-! ## The claims -/

/-- C2: `completeTask id` on any registry.  When some task has the id, the call reports the
completion and the registry afterwards is the original one with the status of the first
task with that id set to `COMPLETED`: the tasks before and after it, its other members, the
order and the counter are the same.  When no task has the id, the call reports the id as not
found and the registry is the same. -/
theorem completeTask_spec (m : TaskManager) (id : Int) :
    ((∃ t ∈ m.tasks, t.id = id) →
      ∃ pre t post, m.tasks = pre ++ t :: post ∧ (∀ u ∈ pre, u.id ≠ id) ∧ t.id = id ∧
        m.completeTask id =
          ({ tasks := pre ++ { t with status := Status.COMPLETED } :: post,
             nextId := m.nextId }, [Out.taskCompleted id])) ∧
    ((¬ ∃ t ∈ m.tasks, t.id = id) → m.completeTask id = (m, [Out.taskNotFound id])) := by
  constructor
  · intro h
    obtain ⟨pre, t, post, hl, hpre, hid, hc⟩ := completeLoop_some id m.tasks h
    exact ⟨pre, t, post, hl, hpre, hid, by simp [TaskManager.completeTask, hc]⟩
  · intro h
    have hn : ∀ t ∈ m.tasks, t.id ≠ id := fun t ht e => h ⟨t, ht, e⟩
    simp [TaskManager.completeTask, completeLoop_none id m.tasks hn]

/-- C3: `deleteTask id` on any registry.  It reports the deletion exactly when some task has
the id and reports the id as not found exactly when none has; the task list afterwards is
the original list without the tasks whose id is `id`, the others unmodified and in their
order; the counter is the same; and when no task has the id the whole registry is the
same. -/
theorem deleteTask_spec (m : TaskManager) (id : Int) :
    ((m.deleteTask id).2 = [Out.taskDeleted id] ↔ ∃ t ∈ m.tasks, t.id = id) ∧
    ((m.deleteTask id).2 = [Out.taskNotFound id] ↔ ¬ ∃ t ∈ m.tasks, t.id = id) ∧
    (m.deleteTask id).1.tasks = m.tasks.filter (fun t => decide (t.id ≠ id)) ∧
    (m.deleteTask id).1.nextId = m.nextId ∧
    ((¬ ∃ t ∈ m.tasks, t.id = id) → (m.deleteTask id).1 = m) := by
  have hcases : (∃ t ∈ m.tasks, t.id = id) ∨ ¬ ∃ t ∈ m.tasks, t.id = id := Classical.em _
  have hyes : (∃ t ∈ m.tasks, t.id = id) → (m.deleteTask id).2 = [Out.taskDeleted id] := by
    rintro ⟨t, ht, hid⟩
    have hlt := remove_if_length_lt (fun t => decide (t.getId = id)) m.tasks t ht
      (by simp [Task.getId, hid])
    unfold TaskManager.deleteTask
    dsimp only
    rw [if_pos (by omega)]
  have hno : (¬ ∃ t ∈ m.tasks, t.id = id) → m.deleteTask id = (m, [Out.taskNotFound id]) := by
    intro h
    have hn : ∀ t ∈ m.tasks, (fun t => decide (t.getId = id)) t = false := by
      intro t ht
      have : t.id ≠ id := fun e => h ⟨t, ht, e⟩
      simp [Task.getId, this]
    unfold TaskManager.deleteTask
    dsimp only
    rw [remove_if_of_none _ _ hn]
    simp
  refine ⟨⟨?_, hyes⟩, ⟨?_, fun h => by rw [hno h]⟩, deleteTask_tasks m id,
    deleteTask_nextId m id, fun h => by rw [hno h]⟩
  · intro hd
    rcases hcases with h | h
    · exact h
    · rw [hno h] at hd
      simp at hd
  · intro hd h
    rw [hyes h] at hd
    simp at hd

/-- C2, at concrete registries: with two tasks of ids 1 and 2, `completeTask 2` completes
the second one; on the empty registry `completeTask 99` reports 99 as not found. -/
theorem completeTask_spec_witness :
    (∃ pre t post,
      [Task.mkTask 1 "a" Priority.MEDIUM 0, Task.mkTask 2 "b" Priority.MEDIUM 0]
        = pre ++ t :: post ∧ (∀ u ∈ pre, u.id ≠ 2) ∧ t.id = 2 ∧
      TaskManager.completeTask
        { tasks := [Task.mkTask 1 "a" Priority.MEDIUM 0, Task.mkTask 2 "b" Priority.MEDIUM 0],
          nextId := 3 } 2 =
        ({ tasks := pre ++ { t with status := Status.COMPLETED } :: post, nextId := 3 },
         [Out.taskCompleted 2])) ∧
    TaskManager.init.completeTask 99 = (TaskManager.init, [Out.taskNotFound 99]) :=
  ⟨(completeTask_spec
      { tasks := [Task.mkTask 1 "a" Priority.MEDIUM 0, Task.mkTask 2 "b" Priority.MEDIUM 0],
        nextId := 3 } 2).1 ⟨Task.mkTask 2 "b" Priority.MEDIUM 0, by decide, by decide⟩,
   (completeTask_spec TaskManager.init 99).2 (by simp [TaskManager.init])⟩

theorem listLoop_eq (f : Status) (l : List Task) :
    listLoop f l
      = (l.filter (fun t => decide (t.status = f ∨ f = Status.ARCHIVED))).map Out.display := by
  induction l with
  | nil => rfl
  | cons t rest ih =>
    by_cases h : t.status = f ∨ f = Status.ARCHIVED
    · simp [listLoop, Task.getStatus, h, ih]
    · simp [listLoop, Task.getStatus, h, ih]

theorem displayedTasks_map_display (l : List Task) :
    displayedTasks (l.map Out.display) = l := by
  induction l with
  | nil => rfl
  | cons t rest ih => simp [displayedTasks, ih]

theorem displayedTasks_listTasks (m : TaskManager) (f : Status) :
    displayedTasks (m.listTasks f)
      = m.tasks.filter (fun t => decide (t.status = f ∨ f = Status.ARCHIVED)) := by
  unfold TaskManager.listTasks
  cases hm : m.tasks with
  | nil => simp [displayedTasks]
  | cons t rest =>
    have h := displayedTasks_map_display
      ((t :: rest).filter (fun t => decide (t.status = f ∨ f = Status.ARCHIVED)))
    rw [← listLoop_eq] at h
    generalize listLoop f (t :: rest) = out at h
    have hsnoc : ∀ o : List Out, displayedTasks (o ++ [Out.blankLine]) = displayedTasks o := by
      intro o
      induction o with
      | nil => rfl
      | cons x xs ih => cases x <;> simp [displayedTasks, ih]
    simp only [List.isEmpty_cons, Bool.false_eq_true, if_false, List.singleton_append,
      List.cons_append, displayedTasks]
    exact (hsnoc out).trans h

/-- C4: the tasks that `listTasks(ACTIVE)` displays are exactly the tasks of the registry
whose status is `ACTIVE`, in vector (creation) order, none of them `COMPLETED`; the tasks
that `listTasks(ARCHIVED)` displays are all the tasks of the registry in vector order; and
for a non-empty registry the output is the header, one `display()` per selected task in that
order, and the closing line. -/
theorem listTasks_spec (m : TaskManager) :
    displayedTasks (m.listTasks Status.ACTIVE)
      = m.tasks.filter (fun t => decide (t.status = Status.ACTIVE)) ∧
    (∀ t ∈ displayedTasks (m.listTasks Status.ACTIVE), t.status ≠ Status.COMPLETED) ∧
    displayedTasks (m.listTasks Status.ARCHIVED) = m.tasks ∧
    (m.tasks ≠ [] →
      m.listTasks Status.ACTIVE
        = [Out.taskListHeader]
            ++ (m.tasks.filter (fun t => decide (t.status = Status.ACTIVE))).map Out.display
            ++ [Out.blankLine] ∧
      m.listTasks Status.ARCHIVED
        = [Out.taskListHeader] ++ m.tasks.map Out.display ++ [Out.blankLine]) := by
  have hA : displayedTasks (m.listTasks Status.ACTIVE)
      = m.tasks.filter (fun t => decide (t.status = Status.ACTIVE)) := by
    rw [displayedTasks_listTasks]
    congr 1
    funext t
    simp
  refine ⟨hA, ?_, ?_, ?_⟩
  · intro t ht
    rw [hA] at ht
    have := (List.mem_filter.mp ht).2
    simp only [decide_eq_true_eq] at this
    rw [this]
    decide
  · rw [displayedTasks_listTasks]
    simp
  · intro hne
    have hemp : m.tasks.isEmpty = false := by
      cases hm : m.tasks with
      | nil => exact absurd hm hne
      | cons t rest => rfl
    constructor
    · simp only [TaskManager.listTasks, hemp, Bool.false_eq_true, if_false, listLoop_eq]
      congr 4
      funext t
      simp
    · simp only [TaskManager.listTasks, hemp, Bool.false_eq_true, if_false, listLoop_eq]
      simp

/-- C4, at a registry of three tasks of which the second is completed: the active listing
shows the first and the third, the full listing all three. -/
theorem listTasks_spec_witness :
    TaskManager.listTasks
        { tasks := [Task.mkTask 1 "a" Priority.MEDIUM 0,
                    (Task.mkTask 2 "b" Priority.HIGH 0).setStatus Status.COMPLETED,
                    Task.mkTask 3 "c" Priority.LOW 0],
          nextId := 4 } Status.ACTIVE
      = [Out.taskListHeader, Out.display (Task.mkTask 1 "a" Priority.MEDIUM 0),
         Out.display (Task.mkTask 3 "c" Priority.LOW 0), Out.blankLine] ∧
    TaskManager.listTasks
        { tasks := [Task.mkTask 1 "a" Priority.MEDIUM 0,
                    (Task.mkTask 2 "b" Priority.HIGH 0).setStatus Status.COMPLETED,
                    Task.mkTask 3 "c" Priority.LOW 0],
          nextId := 4 } Status.ARCHIVED
      = [Out.taskListHeader, Out.display (Task.mkTask 1 "a" Priority.MEDIUM 0),
         Out.display ((Task.mkTask 2 "b" Priority.HIGH 0).setStatus Status.COMPLETED),
         Out.display (Task.mkTask 3 "c" Priority.LOW 0), Out.blankLine] :=
  (listTasks_spec
      { tasks := [Task.mkTask 1 "a" Priority.MEDIUM 0,
                  (Task.mkTask 2 "b" Priority.HIGH 0).setStatus Status.COMPLETED,
                  Task.mkTask 3 "c" Priority.LOW 0],
        nextId := 4 }).2.2.2 (by simp)

/-! ### Statuses and the statistics -/

theorem completeLoop_map_id (id : Int) (l r : List Task) (h : completeLoop id l = some r) :
    r.map Task.id = l.map Task.id := by
  induction l generalizing r with
  | nil => simp [completeLoop] at h
  | cons t rest ih =>
    by_cases ht : t.getId = id
    · simp only [completeLoop, ht, if_true, Option.some.injEq] at h
      subst h
      simp [Task.setStatus]
    · simp only [completeLoop, ht, if_false, Option.map_eq_some'] at h
      obtain ⟨r1, hr1, rfl⟩ := h
      simp [ih r1 hr1]

theorem loopBody_registry_cases (now : Int) (m : TaskManager) (command : String) :
    (loopBody now m command).1 = m ∨
    (∃ title, (loopBody now m command).1 = (m.addTask title Priority.MEDIUM now).1) ∨
    (∃ id, (loopBody now m command).1 = (m.completeTask id).1) ∨
    (∃ id, (loopBody now m command).1 = (m.deleteTask id).1) := by
  unfold loopBody
  dsimp only
  generalize (extractString (IStringStream.open command) "").2 = cmd
  generalize (extractString (IStringStream.open command) "").1 = iss
  by_cases h0 : command = ""
  · rw [if_pos h0]
    exact Or.inl rfl
  rw [if_neg h0]
  by_cases h1 : cmd = "exit" ∨ cmd = "quit"
  · rw [if_pos h1]
    exact Or.inl rfl
  rw [if_neg h1]
  by_cases h2 : cmd = "help"
  · rw [if_pos h2]
    exact Or.inl rfl
  rw [if_neg h2]
  by_cases h3 : cmd = "add"
  · rw [if_pos h3]
    by_cases ht : (getline (ws iss) "").2 ≠ ""
    · rw [if_pos ht]
      exact Or.inr (Or.inl ⟨_, rfl⟩)
    · rw [if_neg ht]
      exact Or.inl rfl
  rw [if_neg h3]
  by_cases h4 : cmd = "list"
  · rw [if_pos h4]
    exact Or.inl rfl
  rw [if_neg h4]
  by_cases h5 : cmd = "complete"
  · rw [if_pos h5]
    by_cases hi : (extractInt iss 0).1.toBool = true
    · rw [if_pos hi]
      exact Or.inr (Or.inr (Or.inl ⟨_, rfl⟩))
    · rw [if_neg hi]
      exact Or.inl rfl
  rw [if_neg h5]
  by_cases h6 : cmd = "delete"
  · rw [if_pos h6]
    by_cases hi : (extractInt iss 0).1.toBool = true
    · rw [if_pos hi]
      exact Or.inr (Or.inr (Or.inr ⟨_, rfl⟩))
    · rw [if_neg hi]
      exact Or.inl rfl
  rw [if_neg h6]
  by_cases h7 : cmd = "stats"
  · rw [if_pos h7]
    exact Or.inl rfl
  · rw [if_neg h7]
    exact Or.inl rfl

theorem loopBody_registry (now : Int) (m : TaskManager) (command : String) :
    (loopBody now m command).1 = m ∨ ∃ op, (loopBody now m command).1 = (m.call op).1 := by
  rcases loopBody_registry_cases now m command with h | ⟨title, h⟩ | ⟨id, h⟩ | ⟨id, h⟩
  · exact Or.inl h
  · exact Or.inr ⟨Op.addTask title Priority.MEDIUM now, h⟩
  · exact Or.inr ⟨Op.completeTask id, h⟩
  · exact Or.inr ⟨Op.deleteTask id, h⟩

theorem completeLoop_split (id : Int) (pre post : List Task) (t : Task)
    (hpre : ∀ u ∈ pre, u.id ≠ id) (hid : t.id = id) :
    completeLoop id (pre ++ t :: post)
      = some (pre ++ { t with status := Status.COMPLETED } :: post) := by
  induction pre with
  | nil => simp [completeLoop, Task.getId, Task.setStatus, hid]
  | cons u rest ih =>
    have hu : u.id ≠ id := hpre u (List.mem_cons_self _ _)
    have hr := ih (fun v hv => hpre v (List.mem_cons_of_mem _ hv))
    simp [completeLoop, Task.getId, hu, hr]

theorem find_split (id : Int) (pre post : List Task) (t : Task)
    (hpre : ∀ u ∈ pre, u.id ≠ id) (hid : t.id = id) :
    (pre ++ t :: post).find? (fun u => decide (u.id = id)) = some t := by
  induction pre with
  | nil => simp [hid]
  | cons u rest ih =>
    have hu : u.id ≠ id := hpre u (List.mem_cons_self _ _)
    have hr := ih (fun v hv => hpre v (List.mem_cons_of_mem _ hv))
    simp [List.find?_cons, hu, hr]

/-- C8: when some task has the id, `completeTask id` called twice reports the completion
both times, the registry after the second call is the registry after the first, and in it
the first task with that id is `COMPLETED`. -/
theorem completeTask_idempotent (m : TaskManager) (id : Int) (h : ∃ t ∈ m.tasks, t.id = id) :
    (m.completeTask id).2 = [Out.taskCompleted id] ∧
    ((m.completeTask id).1.completeTask id).2 = [Out.taskCompleted id] ∧
    ((m.completeTask id).1.completeTask id).1 = (m.completeTask id).1 ∧
    ((m.completeTask id).1.tasks.find? (fun u => decide (u.id = id))).map Task.status
      = some Status.COMPLETED := by
  obtain ⟨pre, t, post, hl, hpre, hid, hc⟩ := completeLoop_some id m.tasks h
  have h1 : m.completeTask id
      = ({ tasks := pre ++ { t with status := Status.COMPLETED } :: post, nextId := m.nextId },
         [Out.taskCompleted id]) := by
    simp [TaskManager.completeTask, hc]
  have hid2 : ({ t with status := Status.COMPLETED } : Task).id = id := hid
  have hc2 := completeLoop_split id pre post { t with status := Status.COMPLETED } hpre hid2
  have h2 : TaskManager.completeTask
      { tasks := pre ++ { t with status := Status.COMPLETED } :: post, nextId := m.nextId } id
      = ({ tasks := pre ++ { t with status := Status.COMPLETED } :: post, nextId := m.nextId },
         [Out.taskCompleted id]) := by
    simp [TaskManager.completeTask, hc2]
  rw [h1]
  dsimp only
  rw [h2]
  refine ⟨rfl, rfl, rfl, ?_⟩
  rw [find_split id pre post _ hpre hid2]
  rfl

/-- C8, at a registry with tasks 1 and 2, for id 2. -/
theorem completeTask_idempotent_witness :
    (TaskManager.completeTask
        { tasks := [Task.mkTask 1 "a" Priority.MEDIUM 0, Task.mkTask 2 "b" Priority.MEDIUM 0],
          nextId := 3 } 2).2 = [Out.taskCompleted 2] ∧
    ((TaskManager.completeTask
        { tasks := [Task.mkTask 1 "a" Priority.MEDIUM 0, Task.mkTask 2 "b" Priority.MEDIUM 0],
          nextId := 3 } 2).1.completeTask 2).2 = [Out.taskCompleted 2] ∧
    ((TaskManager.completeTask
        { tasks := [Task.mkTask 1 "a" Priority.MEDIUM 0, Task.mkTask 2 "b" Priority.MEDIUM 0],
          nextId := 3 } 2).1.completeTask 2).1
      = (TaskManager.completeTask
          { tasks := [Task.mkTask 1 "a" Priority.MEDIUM 0,
                      Task.mkTask 2 "b" Priority.MEDIUM 0],
            nextId := 3 } 2).1 ∧
    ((TaskManager.completeTask
        { tasks := [Task.mkTask 1 "a" Priority.MEDIUM 0, Task.mkTask 2 "b" Priority.MEDIUM 0],
          nextId := 3 } 2).1.tasks.find? (fun u => decide (u.id = 2))).map Task.status
      = some Status.COMPLETED :=
  completeTask_idempotent
    { tasks := [Task.mkTask 1 "a" Priority.MEDIUM 0, Task.mkTask 2 "b" Priority.MEDIUM 0],
      nextId := 3 } 2 ⟨Task.mkTask 2 "b" Priority.MEDIUM 0, by decide, by decide⟩

/-- C9: on any registry and for any id, a `deleteTask id` that directly follows a
`deleteTask id` reports the id as not found and returns the registry it was given; and
through the command loop, after `add x` on the empty registry, `delete 1` reports the
deletion and a second `delete 1` reports 1 as not found. -/
theorem deleteTask_twice_not_found (m : TaskManager) (id : Int) :
    (m.deleteTask id).1.deleteTask id = ((m.deleteTask id).1, [Out.taskNotFound id]) ∧
    (∀ t1 t2 t3 : Int,
      loopBody t1 TaskManager.init "add x"
        = ({ tasks := [Task.mkTask 1 "x" Priority.MEDIUM t1], nextId := 2 },
           [Out.taskAdded], false) ∧
      loopBody t2 { tasks := [Task.mkTask 1 "x" Priority.MEDIUM t1], nextId := 2 } "delete 1"
        = ({ tasks := [], nextId := 2 }, [Out.taskDeleted 1], false) ∧
      loopBody t3 { tasks := [], nextId := 2 } "delete 1"
        = ({ tasks := [], nextId := 2 }, [Out.taskNotFound 1], false)) := by
  constructor
  · have hn : ∀ t ∈ (m.deleteTask id).1.tasks, (fun t => decide (t.getId = id)) t = false := by
      intro t ht
      rw [deleteTask_tasks] at ht
      have := (List.mem_filter.mp ht).2
      simpa [Task.getId] using this
    generalize (m.deleteTask id).1 = m1 at hn
    unfold TaskManager.deleteTask
    dsimp only
    rw [remove_if_of_none _ _ hn]
    simp
  · intro t1 t2 t3
    exact ⟨rfl, rfl, rfl⟩

/-! ### The command loop on one line -/

theorem dropWhile_append_of_all (p : Char → Bool) (pre r : List Char)
    (h : ∀ c ∈ pre, p c = true) : (pre ++ r).dropWhile p = r.dropWhile p := by
  induction pre with
  | nil => rfl
  | cons c rest ih =>
    have hc : p c = true := h c (List.mem_cons_self _ _)
    simp [List.dropWhile_cons, hc, ih (fun d hd => h d (List.mem_cons_of_mem _ hd))]

theorem dropWhile_of_all (p : Char → Bool) (l : List Char) (h : ∀ c ∈ l, p c = true) :
    l.dropWhile p = [] := by
  have := dropWhile_append_of_all p l [] h
  simpa using this

theorem takeWhile_not_of_all (p : Char → Bool) (l : List Char) (h : ∀ c ∈ l, p c = true) :
    l.takeWhile (fun c => !p c) = [] ∧ l.dropWhile (fun c => !p c) = l := by
  cases l with
  | nil => exact ⟨rfl, rfl⟩
  | cons c rest =>
    have hc : p c = true := h c (List.mem_cons_self _ _)
    simp [List.takeWhile_cons, List.dropWhile_cons, hc]

/-- The keyword extraction on a line made of whitespace, a word of non-whitespace
characters, and a rest that is empty or starts with whitespace. -/
theorem extractString_word (command : String) (pre word post : List Char)
    (hc : command.toList = pre ++ word ++ post)
    (hpre : ∀ c ∈ pre, isspace c = true)
    (hword : ∀ c ∈ word, isspace c = false) (hne : word ≠ [])
    (hpost : post = [] ∨ ∃ c r, post = c :: r ∧ isspace c = true) :
    extractString (IStringStream.open command) ""
      = ({ buf := post, eofbit := post.isEmpty, failbit := false }, String.mk word) := by
  obtain ⟨w, ws1, rfl⟩ := List.exists_cons_of_ne_nil hne
  have hw : isspace w = false := hword w (List.mem_cons_self _ _)
  have hdrop : (pre ++ (w :: ws1) ++ post).dropWhile isspace = w :: (ws1 ++ post) := by
    rw [List.append_assoc, dropWhile_append_of_all isspace pre _ hpre]
    simp [List.dropWhile_cons, hw]
  have htake : ∀ l : List Char, (∀ c ∈ l, isspace c = false) →
      (l ++ post).takeWhile (fun c => !isspace c) = l ∧
      (l ++ post).dropWhile (fun c => !isspace c) = post := by
    intro l hl
    induction l with
    | nil =>
      rcases hpost with rfl | ⟨c, r, rfl, hcs⟩
      · exact ⟨rfl, rfl⟩
      · simp [List.takeWhile_cons, List.dropWhile_cons, hcs]
    | cons c rest ih =>
      have hcs : isspace c = false := hl c (List.mem_cons_self _ _)
      obtain ⟨i1, i2⟩ := ih (fun d hd => hl d (List.mem_cons_of_mem _ hd))
      simp [List.takeWhile_cons, List.dropWhile_cons, hcs, i1, i2]
  obtain ⟨t1, t2⟩ := htake (w :: ws1) hword
  simp only [List.cons_append] at t1 t2
  simp only [extractString, sentry, IStringStream.open, IStringStream.good, hc, hdrop,
    Bool.not_false, Bool.and_self, Bool.not_true, Bool.false_eq_true, if_false, t1, t2,
    List.isEmpty_cons]

/-- C10: for every registry and every line that consists of optional whitespace, the
keyword `add`, and then nothing or only whitespace, the loop body reports "Please provide a
task title." and nothing else, returns the registry it was given (no task created, the
counter the same) and does not leave the loop. -/
theorem add_without_title (now : Int) (m : TaskManager) (command : String)
    (pre post : List Char)
    (hc : command.toList = pre ++ "add".toList ++ post)
    (hpre : ∀ c ∈ pre, isspace c = true) (hpost : ∀ c ∈ post, isspace c = true) :
    loopBody now m command = (m, [Out.provideTitle], false) := by
  have hne : command ≠ "" := by
    intro h
    rw [h] at hc
    have := congrArg List.length hc
    simp at this
    omega
  have hpost2 : post = [] ∨ ∃ c r, post = c :: r ∧ isspace c = true := by
    cases post with
    | nil => exact Or.inl rfl
    | cons c r => exact Or.inr ⟨c, r, rfl, hpost c (List.mem_cons_self _ _)⟩
  have hE := extractString_word command pre "add".toList post hc hpre (by decide) (by decide)
    hpost2
  have hT : (getline (ws { buf := post, eofbit := post.isEmpty, failbit := false }) "").2
      = "" := by
    cases post with
    | nil => rfl
    | cons c r =>
      have hd := dropWhile_of_all isspace (c :: r) hpost
      simp only [ws, sentry, IStringStream.good, List.isEmpty_cons, Bool.not_false,
        Bool.and_self, Bool.not_true, Bool.false_eq_true, if_false, if_true, hd]
      rfl
  unfold loopBody
  dsimp only
  rw [if_neg hne, hE]
  dsimp only
  rw [if_neg (by decide), if_neg (by decide), if_pos (by decide), hT]
  rw [if_neg (by decide)]

/-- C10, at the fresh registry and the line `add` followed by two spaces and a tab: the
title is asked for and the counter is still 1. -/
theorem add_without_title_witness :
    ("add  \t".toList = [] ++ "add".toList ++ [' ', ' ', '\t'] ∧
      (∀ c ∈ ([] : List Char), isspace c = true) ∧
      (∀ c ∈ [' ', ' ', '\t'], isspace c = true)) ∧
    loopBody 0 TaskManager.init "add  \t" = (TaskManager.init, [Out.provideTitle], false) ∧
    (loopBody 0 TaskManager.init "add  \t").1.nextId = 1 :=
  ⟨⟨by decide, by decide, by decide⟩,
   add_without_title 0 TaskManager.init "add  \t" [] [' ', ' ', '\t'] (by decide) (by decide)
     (by decide),
   by decide⟩

/-! ### What one line can do to the registry -/

theorem loopBody_shape (now : Int) (m : TaskManager) (command : String) :
    (loopBody now m command).1 = m ∨
    ((extractString (IStringStream.open command) "").2 = "add" ∧
      ∃ title, title ≠ "" ∧
        (loopBody now m command).1 = (m.addTask title Priority.MEDIUM now).1) ∨
    ((extractString (IStringStream.open command) "").2 = "complete" ∧
      ∃ id, (loopBody now m command).1 = (m.completeTask id).1) ∨
    ((extractString (IStringStream.open command) "").2 = "delete" ∧
      ∃ id, (loopBody now m command).1 = (m.deleteTask id).1) := by
  unfold loopBody
  dsimp only
  generalize (extractString (IStringStream.open command) "").2 = cmd
  generalize (extractString (IStringStream.open command) "").1 = iss
  by_cases h0 : command = ""
  · rw [if_pos h0]
    exact Or.inl rfl
  rw [if_neg h0]
  by_cases h1 : cmd = "exit" ∨ cmd = "quit"
  · rw [if_pos h1]
    exact Or.inl rfl
  rw [if_neg h1]
  by_cases h2 : cmd = "help"
  · rw [if_pos h2]
    exact Or.inl rfl
  rw [if_neg h2]
  by_cases h3 : cmd = "add"
  · rw [if_pos h3]
    by_cases ht : (getline (ws iss) "").2 ≠ ""
    · rw [if_pos ht]
      exact Or.inr (Or.inl ⟨h3, _, ht, rfl⟩)
    · rw [if_neg ht]
      exact Or.inl rfl
  rw [if_neg h3]
  by_cases h4 : cmd = "list"
  · rw [if_pos h4]
    exact Or.inl rfl
  rw [if_neg h4]
  by_cases h5 : cmd = "complete"
  · rw [if_pos h5]
    by_cases hi : (extractInt iss 0).1.toBool = true
    · rw [if_pos hi]
      exact Or.inr (Or.inr (Or.inl ⟨h5, _, rfl⟩))
    · rw [if_neg hi]
      exact Or.inl rfl
  rw [if_neg h5]
  by_cases h6 : cmd = "delete"
  · rw [if_pos h6]
    by_cases hi : (extractInt iss 0).1.toBool = true
    · rw [if_pos hi]
      exact Or.inr (Or.inr (Or.inr ⟨h6, _, rfl⟩))
    · rw [if_neg hi]
      exact Or.inl rfl
  rw [if_neg h6]
  by_cases h7 : cmd = "stats"
  · rw [if_pos h7]
    exact Or.inl rfl
  · rw [if_neg h7]
    exact Or.inl rfl

theorem loopBody_tasks (now : Int) (m : TaskManager) (command : String) :
    (loopBody now m command).1 = m ∨
    ((extractString (IStringStream.open command) "").2 = "add" ∧
      ∃ title, title ≠ "" ∧
        (loopBody now m command).1
          = { tasks := m.tasks ++ [Task.mkTask m.nextId title Priority.MEDIUM now],
              nextId := wrapInt32 (m.nextId + 1) }) ∨
    ((extractString (IStringStream.open command) "").2 = "complete" ∧
      ∃ pre t post, m.tasks = pre ++ t :: post ∧
        (loopBody now m command).1
          = { tasks := pre ++ { t with status := Status.COMPLETED } :: post,
              nextId := m.nextId }) ∨
    ((extractString (IStringStream.open command) "").2 = "delete" ∧
      ∃ id, (loopBody now m command).1
          = { tasks := m.tasks.filter (fun t => decide (t.id ≠ id)), nextId := m.nextId }) := by
  rcases loopBody_shape now m command with h | ⟨hk, title, ht, h⟩ | ⟨hk, id, h⟩ | ⟨hk, id, h⟩
  · exact Or.inl h
  · exact Or.inr (Or.inl ⟨hk, title, ht, h⟩)
  · by_cases hex : ∃ t ∈ m.tasks, t.id = id
    · obtain ⟨pre, t, post, hl, _, _, hc⟩ := completeLoop_some id m.tasks hex
      refine Or.inr (Or.inr (Or.inl ⟨hk, pre, t, post, hl, ?_⟩))
      rw [h]
      simp [TaskManager.completeTask, hc]
    · have hn : ∀ t ∈ m.tasks, t.id ≠ id := fun t ht e => hex ⟨t, ht, e⟩
      refine Or.inl ?_
      rw [h]
      simp [TaskManager.completeTask, completeLoop_none id m.tasks hn]
  · refine Or.inr (Or.inr (Or.inr ⟨hk, id, ?_⟩))
    rw [h]
    have h1 := deleteTask_tasks m id
    have h2 := deleteTask_nextId m id
    cases hd : (m.deleteTask id).1 with
    | mk ts n =>
      rw [hd] at h1 h2
      simp only at h1 h2
      rw [h1, h2]

theorem same_task_of_same_id (m : TaskManager) (h : idsAscending m) (t u : Task)
    (ht : t ∈ m.tasks) (hu : u ∈ m.tasks) (hid : u.id = t.id) : u = t := by
  have hnd : (m.tasks.map Task.id).Nodup := h.1.imp (fun h => ne_of_lt h)
  exact List.inj_on_of_nodup_map hnd hu ht hid

/-- C11: for every registry and every line run through the loop body, the registry
afterwards is the same, or has one new task at the end whose status is `ACTIVE`, or differs
in the status of one task, now `COMPLETED`, on a line whose keyword is `complete`, or is the
old list with tasks removed.  Hence, in a registry with ascending ids, a task that is
present before and after (same id) and was `COMPLETED` is still `COMPLETED`; a status that
differs afterwards is `COMPLETED`, the keyword was `complete`, and the status before was
`ACTIVE` when every status is `ACTIVE` or `COMPLETED`; and a task whose id no task had
before is `ACTIVE`. -/
theorem status_never_reverts (now : Int) (m : TaskManager) (command : String) :
    ((loopBody now m command).1 = m ∨
     (∃ title, (loopBody now m command).1.tasks
        = m.tasks ++ [Task.mkTask m.nextId title Priority.MEDIUM now] ∧
        (Task.mkTask m.nextId title Priority.MEDIUM now).status = Status.ACTIVE) ∨
     ((extractString (IStringStream.open command) "").2 = "complete" ∧
       ∃ pre t post, m.tasks = pre ++ t :: post ∧
        (loopBody now m command).1.tasks
          = pre ++ { t with status := Status.COMPLETED } :: post) ∨
     (∃ id, (loopBody now m command).1.tasks
        = m.tasks.filter (fun t => decide (t.id ≠ id)))) ∧
    (idsAscending m → ∀ t ∈ m.tasks, ∀ u ∈ (loopBody now m command).1.tasks, u.id = t.id →
      (t.status = Status.COMPLETED → u.status = Status.COMPLETED) ∧
      (u.status ≠ t.status →
        u.status = Status.COMPLETED ∧
        (extractString (IStringStream.open command) "").2 = "complete" ∧
        (statusesSet m → t.status = Status.ACTIVE))) ∧
    (∀ u ∈ (loopBody now m command).1.tasks, (∀ t ∈ m.tasks, u.id ≠ t.id) →
      u.status = Status.ACTIVE) := by
  have hshape := loopBody_tasks now m command
  refine ⟨?_, ?_, ?_⟩
  · rcases hshape with h | ⟨_, title, _, h⟩ | ⟨hk, pre, t, post, hl, h⟩ | ⟨_, id, h⟩
    · exact Or.inl h
    · exact Or.inr (Or.inl ⟨title, by rw [h], rfl⟩)
    · exact Or.inr (Or.inr (Or.inl ⟨hk, pre, t, post, hl, by rw [h]⟩))
    · exact Or.inr (Or.inr (Or.inr ⟨id, by rw [h]⟩))
  · intro hasc t ht u hu hid
    have same : u ∈ m.tasks → (t.status = Status.COMPLETED → u.status = Status.COMPLETED) ∧
        (u.status ≠ t.status →
          u.status = Status.COMPLETED ∧
          (extractString (IStringStream.open command) "").2 = "complete" ∧
          (statusesSet m → t.status = Status.ACTIVE)) := by
      intro hum
      have e := same_task_of_same_id m hasc t u ht hum hid
      subst e
      exact ⟨fun h => h, fun h => absurd rfl h⟩
    rcases hshape with h | ⟨_, title, _, h⟩ | ⟨hk, pre, t0, post, hl, h⟩ | ⟨_, id, h⟩
    · rw [h] at hu
      exact same hu
    · rw [h] at hu
      simp only [List.mem_append, List.mem_singleton] at hu
      rcases hu with hu | rfl
      · exact same hu
      · have := (hasc.2.1 t.id (List.mem_map_of_mem _ ht)).2
        simp only [Task.mkTask] at hid
        omega
    · rw [h] at hu
      simp only [List.mem_append, List.mem_cons] at hu
      have hcase : u ∈ m.tasks ∨ u = { t0 with status := Status.COMPLETED } := by
        rw [hl]
        rcases hu with hu | hu | hu
        · exact Or.inl (List.mem_append_left _ hu)
        · exact Or.inr hu
        · exact Or.inl (List.mem_append_right _ (List.mem_cons_of_mem _ hu))
      rcases hcase with hu | rfl
      · exact same hu
      · have ht0 : t0 ∈ m.tasks := by
          rw [hl]
          exact List.mem_append_right _ (List.mem_cons_self _ _)
        have e := same_task_of_same_id m hasc t t0 ht ht0 hid
        subst e
        refine ⟨fun _ => rfl, fun hne => ⟨rfl, hk, fun hst => ?_⟩⟩
        rcases hst t0 ht with hs | hs
        · exact hs
        · exact absurd hs.symm hne
    · rw [h] at hu
      exact same (List.mem_filter.mp hu).1
  · intro u hu hnew
    rcases hshape with h | ⟨_, title, _, h⟩ | ⟨hk, pre, t0, post, hl, h⟩ | ⟨_, id, h⟩
    · rw [h] at hu
      exact absurd rfl (hnew u hu)
    · rw [h] at hu
      simp only [List.mem_append, List.mem_singleton] at hu
      rcases hu with hu | rfl
      · exact absurd rfl (hnew u hu)
      · rfl
    · rw [h] at hu
      simp only [List.mem_append, List.mem_cons] at hu
      have ht0 : t0 ∈ m.tasks := by
        rw [hl]
        exact List.mem_append_right _ (List.mem_cons_self _ _)
      rcases hu with hu | rfl | hu
      · exact absurd rfl (hnew u (by rw [hl]; exact List.mem_append_left _ hu))
      · exact absurd rfl (hnew t0 ht0)
      · exact absurd rfl
          (hnew u (by rw [hl]; exact List.mem_append_right _ (List.mem_cons_of_mem _ hu)))
    · rw [h] at hu
      exact absurd rfl (hnew u (List.mem_filter.mp hu).1)

/-- C11, at a registry with an active task 1 and a completed task 2 and the line
`complete 1`. -/
theorem status_never_reverts_witness :
    idsAscending
      { tasks := [Task.mkTask 1 "a" Priority.MEDIUM 0,
                  (Task.mkTask 2 "b" Priority.MEDIUM 0).setStatus Status.COMPLETED],
        nextId := 3 } ∧
    (loopBody 0
      { tasks := [Task.mkTask 1 "a" Priority.MEDIUM 0,
                  (Task.mkTask 2 "b" Priority.MEDIUM 0).setStatus Status.COMPLETED],
        nextId := 3 } "complete 1").1.tasks
      = [(Task.mkTask 1 "a" Priority.MEDIUM 0).setStatus Status.COMPLETED,
         (Task.mkTask 2 "b" Priority.MEDIUM 0).setStatus Status.COMPLETED] ∧
    (∀ t ∈ [Task.mkTask 1 "a" Priority.MEDIUM 0,
            (Task.mkTask 2 "b" Priority.MEDIUM 0).setStatus Status.COMPLETED],
      ∀ u ∈ (loopBody 0
        { tasks := [Task.mkTask 1 "a" Priority.MEDIUM 0,
                    (Task.mkTask 2 "b" Priority.MEDIUM 0).setStatus Status.COMPLETED],
          nextId := 3 } "complete 1").1.tasks,
      u.id = t.id →
      (t.status = Status.COMPLETED → u.status = Status.COMPLETED) ∧
      (u.status ≠ t.status →
        u.status = Status.COMPLETED ∧
        (extractString (IStringStream.open "complete 1") "").2 = "complete" ∧
        (statusesSet
          { tasks := [Task.mkTask 1 "a" Priority.MEDIUM 0,
                      (Task.mkTask 2 "b" Priority.MEDIUM 0).setStatus Status.COMPLETED],
            nextId := 3 } → t.status = Status.ACTIVE))) :=
  have h : idsAscending
      { tasks := [Task.mkTask 1 "a" Priority.MEDIUM 0,
                  (Task.mkTask 2 "b" Priority.MEDIUM 0).setStatus Status.COMPLETED],
        nextId := 3 } := by
    simp [idsAscending, Task.mkTask, Task.setStatus]
  ⟨h, by rfl, (status_never_reverts 0 _ "complete 1").2.1 h⟩

/-! ### Titles -/

theorem loopBody_titles (now : Int) (m : TaskManager) (command : String)
    (h : ∀ t ∈ m.tasks, t.title ≠ "") :
    ∀ t ∈ (loopBody now m command).1.tasks, t.title ≠ "" := by
  intro u hu
  rcases loopBody_tasks now m command with
    e | ⟨_, title, htitle, e⟩ | ⟨_, pre, t0, post, hl, e⟩ | ⟨_, id, e⟩
  · rw [e] at hu
    exact h u hu
  · rw [e] at hu
    simp only [List.mem_append, List.mem_singleton] at hu
    rcases hu with hu | rfl
    · exact h u hu
    · exact htitle
  · rw [e] at hu
    simp only [List.mem_append, List.mem_cons] at hu
    rcases hu with hu | rfl | hu
    · exact h u (by rw [hl]; exact List.mem_append_left _ hu)
    · exact h t0 (by rw [hl]; exact List.mem_append_right _ (List.mem_cons_self _ _))
    · exact h u (by rw [hl]; exact List.mem_append_right _ (List.mem_cons_of_mem _ hu))
  · rw [e] at hu
    exact h u (List.mem_filter.mp hu).1

theorem runLines_titles (m : TaskManager) (lines : List (Int × String))
    (h : ∀ t ∈ m.tasks, t.title ≠ "") : ∀ t ∈ (runLines m lines).tasks, t.title ≠ "" := by
  induction lines generalizing m with
  | nil => exact h
  | cons l rest ih =>
    obtain ⟨now, command⟩ := l
    have hstep := loopBody_titles now m command h
    simp only [runLines]
    split_ifs
    · exact hstep
    · exact ih _ hstep

/-! ### The `add` line and unknown keywords -/

theorem takeWhile_of_all (p : Char → Bool) (l : List Char) (h : ∀ c ∈ l, p c = true) :
    l.takeWhile p = l := by
  induction l with
  | nil => rfl
  | cons c rest ih =>
    have hc : p c = true := h c (List.mem_cons_self _ _)
    simp [List.takeWhile_cons, hc, ih (fun d hd => h d (List.mem_cons_of_mem _ hd))]

/-- C16: for every registry and every line whose first whitespace-delimited word is not
exactly one of `add`, `list`, `complete`, `delete`, `stats`, `help`, `exit`, `quit`, the
loop body reports the unknown-command error and nothing else, returns the registry it was
given and does not leave the loop. -/
theorem unknown_keyword (now : Int) (m : TaskManager) (command : String)
    (pre word post : List Char)
    (hc : command.toList = pre ++ word ++ post)
    (hpre : ∀ c ∈ pre, isspace c = true)
    (hword : ∀ c ∈ word, isspace c = false) (hne : word ≠ [])
    (hpost : post = [] ∨ ∃ c r, post = c :: r ∧ isspace c = true)
    (hk : String.mk word ∉
      ["add", "list", "complete", "delete", "stats", "help", "exit", "quit"]) :
    loopBody now m command = (m, [Out.unknownCommand], false) := by
  have hcne : command ≠ "" := by
    intro h
    rw [h] at hc
    have := congrArg List.length hc
    obtain ⟨w, ws1, rfl⟩ := List.exists_cons_of_ne_nil hne
    simp at this
    omega
  have hE := extractString_word command pre word post hc hpre hword hne hpost
  simp only [List.mem_cons, List.mem_singleton, List.not_mem_nil, or_false, not_or] at hk
  obtain ⟨k1, k2, k3, k4, k5, k6, k7, k8⟩ := hk
  unfold loopBody
  dsimp only
  rw [if_neg hcne, hE]
  dsimp only
  rw [if_neg (by rintro (h | h); exact k7 h; exact k8 h), if_neg k6, if_neg k1, if_neg k2,
    if_neg k3, if_neg k4, if_neg k5]

/-- C16, at the lines `ADD x`, `List` and `addx`. -/
theorem unknown_keyword_witness :
    loopBody 0 TaskManager.init "ADD x" = (TaskManager.init, [Out.unknownCommand], false) ∧
    loopBody 0 TaskManager.init "List" = (TaskManager.init, [Out.unknownCommand], false) ∧
    loopBody 0 TaskManager.init "addx" = (TaskManager.init, [Out.unknownCommand], false) :=
  ⟨unknown_keyword 0 TaskManager.init "ADD x" [] "ADD".toList " x".toList
      (by decide) (by decide) (by decide) (by decide) (Or.inr ⟨' ', ['x'], rfl, by decide⟩)
      (by decide),
   unknown_keyword 0 TaskManager.init "List" [] "List".toList []
      (by decide) (by decide) (by decide) (by decide) (Or.inl rfl) (by decide),
   unknown_keyword 0 TaskManager.init "addx" [] "addx".toList []
      (by decide) (by decide) (by decide) (by decide) (Or.inl rfl) (by decide)⟩

/-! ### Priorities -/

theorem loopBody_priorities (now : Int) (m : TaskManager) (command : String)
    (h : ∀ t ∈ m.tasks, t.priority = Priority.MEDIUM) :
    ∀ t ∈ (loopBody now m command).1.tasks, t.priority = Priority.MEDIUM := by
  intro u hu
  rcases loopBody_tasks now m command with
    e | ⟨_, title, _, e⟩ | ⟨_, pre, t0, post, hl, e⟩ | ⟨_, id, e⟩
  · rw [e] at hu
    exact h u hu
  · rw [e] at hu
    simp only [List.mem_append, List.mem_singleton] at hu
    rcases hu with hu | rfl
    · exact h u hu
    · rfl
  · rw [e] at hu
    simp only [List.mem_append, List.mem_cons] at hu
    rcases hu with hu | rfl | hu
    · exact h u (by rw [hl]; exact List.mem_append_left _ hu)
    · exact h t0 (by rw [hl]; exact List.mem_append_right _ (List.mem_cons_self _ _))
    · exact h u (by rw [hl]; exact List.mem_append_right _ (List.mem_cons_of_mem _ hu))
  · rw [e] at hu
    exact h u (List.mem_filter.mp hu).1

theorem runLines_priorities (m : TaskManager) (lines : List (Int × String))
    (h : ∀ t ∈ m.tasks, t.priority = Priority.MEDIUM) :
    ∀ t ∈ (runLines m lines).tasks, t.priority = Priority.MEDIUM := by
  induction lines generalizing m with
  | nil => exact h
  | cons l rest ih =>
    obtain ⟨now, command⟩ := l
    have hstep := loopBody_priorities now m command h
    simp only [runLines]
    split_ifs
    · exact hstep
    · exact ih _ hstep

/-- C14: what the code does with a priority word after the title.  On the fresh registry
the line `add Write report high` creates a task whose title is `Write report high` and
whose priority is `MEDIUM`, and likewise for the words `low`, `medium` and `critical`; and
in every registry reached from the empty one by input lines every task has priority
`MEDIUM`: no line sets another priority. -/
theorem add_ignores_priority_word :
    (∀ now : Int,
      loopBody now TaskManager.init "add Write report high"
        = ({ tasks := [Task.mkTask 1 "Write report high" Priority.MEDIUM now], nextId := 2 },
           [Out.taskAdded], false) ∧
      loopBody now TaskManager.init "add Write report low"
        = ({ tasks := [Task.mkTask 1 "Write report low" Priority.MEDIUM now], nextId := 2 },
           [Out.taskAdded], false) ∧
      loopBody now TaskManager.init "add Write report medium"
        = ({ tasks := [Task.mkTask 1 "Write report medium" Priority.MEDIUM now],
             nextId := 2 },
           [Out.taskAdded], false) ∧
      loopBody now TaskManager.init "add Write report critical"
        = ({ tasks := [Task.mkTask 1 "Write report critical" Priority.MEDIUM now],
             nextId := 2 },
           [Out.taskAdded], false)) ∧
    (∀ lines : List (Int × String),
      ∀ t ∈ (runLines TaskManager.init lines).tasks, t.priority = Priority.MEDIUM) := by
  refine ⟨fun now => ⟨rfl, rfl, rfl, rfl⟩, fun lines => ?_⟩
  exact runLines_priorities _ _ (by intro t ht; cases ht)

/-! ### Blank lines -/

/-- C15 as stated fails: the line that is one space is not skipped silently, the
unknown-command error is reported for it. -/
theorem blank_line_not_silent :
    ¬ (∀ (now : Int) (m : TaskManager) (command : String),
        (∀ c ∈ command.toList, c = ' ' ∨ c = '\t') →
        loopBody now m command = (m, [], false)) := by
  intro h
  have h1 := h 0 TaskManager.init " " (by decide)
  have h2 : loopBody 0 TaskManager.init " "
      = (TaskManager.init, [Out.unknownCommand], false) := by decide
  rw [h2] at h1
  exact absurd h1 (by decide)

/-- C15 as amended: for every registry the zero-length line is skipped without any output
and with the registry as it was; a non-empty line of whitespace only also leaves the
registry as it was and the loop running, and the unknown-command error is reported for
it. -/
theorem blank_line_amended (now : Int) (m : TaskManager) :
    loopBody now m "" = (m, [], false) ∧
    (∀ command : String, command ≠ "" → (∀ c ∈ command.toList, isspace c = true) →
      loopBody now m command = (m, [Out.unknownCommand], false)) := by
  refine ⟨rfl, ?_⟩
  intro command hne hall
  have hd := dropWhile_of_all isspace command.toList hall
  have hE : extractString (IStringStream.open command) ""
      = ({ buf := [], eofbit := true, failbit := true }, "") := by
    simp only [extractString, sentry, IStringStream.open, IStringStream.good, hd,
      Bool.not_false, Bool.and_self, Bool.not_true, Bool.false_eq_true, if_false]
  unfold loopBody
  dsimp only
  rw [if_neg hne, hE]
  dsimp only
  rw [if_neg (by decide), if_neg (by decide), if_neg (by decide), if_neg (by decide),
    if_neg (by decide), if_neg (by decide), if_neg (by decide)]

/-- C15 as amended, at the fresh registry and the line of a space and a tab. -/
theorem blank_line_amended_witness :
    loopBody 0 TaskManager.init "" = (TaskManager.init, [], false) ∧
    loopBody 0 TaskManager.init " \t" = (TaskManager.init, [Out.unknownCommand], false) :=
  ⟨(blank_line_amended 0 TaskManager.init).1,
   (blank_line_amended 0 TaskManager.init).2 " \t" (by decide) (by decide)⟩

/-! ### The id argument of `complete` and `delete` -/

theorem takeDrop_digits (digits tail : List Char) (hdig : ∀ c ∈ digits, c.isDigit = true)
    (htail : tail = [] ∨ ∃ c r, tail = c :: r ∧ c.isDigit = false) :
    (digits ++ tail).takeWhile Char.isDigit = digits ∧
    (digits ++ tail).dropWhile Char.isDigit = tail := by
  induction digits with
  | nil =>
    rcases htail with rfl | ⟨c, r, rfl, hcd⟩
    · exact ⟨rfl, rfl⟩
    · simp [List.takeWhile_cons, List.dropWhile_cons, hcd]
  | cons d rest ih =>
    have hd : d.isDigit = true := hdig d (List.mem_cons_self _ _)
    obtain ⟨i1, i2⟩ := ih (fun x hx => hdig x (List.mem_cons_of_mem _ hx))
    simp [List.takeWhile_cons, List.dropWhile_cons, hd, i1, i2]

theorem sentry_at_word (a : Char) (as : List Char) (ha : isspace a = false) :
    sentry { buf := a :: as, eofbit := false, failbit := false } false
      = ({ buf := a :: as, eofbit := false, failbit := false }, true) := by
  simp [sentry, IStringStream.good, List.dropWhile_cons, ha]

theorem sentry_skip (sp : List Char) (a : Char) (as : List Char)
    (hsp : ∀ c ∈ sp, isspace c = true) (ha : isspace a = false) :
    sentry { buf := sp ++ a :: as, eofbit := false, failbit := false } false
      = ({ buf := a :: as, eofbit := false, failbit := false }, true) := by
  have hd : (sp ++ a :: as).dropWhile isspace = a :: as := by
    rw [dropWhile_append_of_all isspace sp _ hsp]
    simp [List.dropWhile_cons, ha]
  simp [sentry, IStringStream.good, hd]

theorem digit_not_space_or_sign (d : Char) (hd : d.isDigit = true) :
    isspace d = false ∧ d ≠ '+' ∧ d ≠ '-' := by
  have h1 : d ≠ ' ' := by rintro rfl; exact absurd hd (by decide)
  have h2 : d ≠ '\t' := by rintro rfl; exact absurd hd (by decide)
  have h3 : d ≠ '\n' := by rintro rfl; exact absurd hd (by decide)
  have h4 : d ≠ Char.ofNat 11 := by rintro rfl; exact absurd hd (by decide)
  have h5 : d ≠ Char.ofNat 12 := by rintro rfl; exact absurd hd (by decide)
  have h6 : d ≠ '\r' := by rintro rfl; exact absurd hd (by decide)
  have h7 : d ≠ '+' := by rintro rfl; exact absurd hd (by decide)
  have h8 : d ≠ '-' := by rintro rfl; exact absurd hd (by decide)
  refine ⟨?_, h7, h8⟩
  simp [isspace, h1, h2, h3, h4, h5, h6]

theorem extractInt_skip (sp : List Char) (a : Char) (as : List Char)
    (hsp : ∀ c ∈ sp, isspace c = true) (ha : isspace a = false) :
    extractInt { buf := sp ++ a :: as, eofbit := false, failbit := false } 0
      = extractInt { buf := a :: as, eofbit := false, failbit := false } 0 := by
  unfold extractInt
  rw [sentry_skip sp a as hsp ha, sentry_at_word a as ha]

/-- The result type of the integer extraction after the sentry, for a digit run `digits`
read with sign `negative` and followed by `tail`. -/
theorem extractInt_unsigned (d : Char) (ds tail : List Char)
    (hdig : ∀ c ∈ d :: ds, c.isDigit = true)
    (htail : tail = [] ∨ ∃ c r, tail = c :: r ∧ c.isDigit = false) :
    extractInt { buf := (d :: ds) ++ tail, eofbit := false, failbit := false } 0
      = if digitsValue (d :: ds) > INT_MAX then
          ({ buf := tail, eofbit := tail.isEmpty, failbit := true }, INT_MAX)
        else if digitsValue (d :: ds) < INT_MIN then
          ({ buf := tail, eofbit := tail.isEmpty, failbit := true }, INT_MIN)
        else ({ buf := tail, eofbit := tail.isEmpty, failbit := false }, digitsValue (d :: ds)) := by
  obtain ⟨hs, hp, hm⟩ := digit_not_space_or_sign d (hdig d (List.mem_cons_self _ _))
  obtain ⟨t1, t2⟩ := takeDrop_digits (d :: ds) tail hdig htail
  rw [List.cons_append] at t1 t2 ⊢
  unfold extractInt
  rw [sentry_at_word d (ds ++ tail) hs]
  simp [hm, hp, t1, t2]

theorem extractInt_signed (sg : Char) (hsg : sg = '+' ∨ sg = '-') (digits tail : List Char)
    (hdig : ∀ c ∈ digits, c.isDigit = true)
    (htail : tail = [] ∨ ∃ c r, tail = c :: r ∧ c.isDigit = false) :
    extractInt { buf := sg :: (digits ++ tail), eofbit := false, failbit := false } 0
      = if digits = [] then ({ buf := tail, eofbit := tail.isEmpty, failbit := true }, 0)
        else if (if sg = '-' then - digitsValue digits else digitsValue digits) > INT_MAX then
          ({ buf := tail, eofbit := tail.isEmpty, failbit := true }, INT_MAX)
        else if (if sg = '-' then - digitsValue digits else digitsValue digits) < INT_MIN then
          ({ buf := tail, eofbit := tail.isEmpty, failbit := true }, INT_MIN)
        else ({ buf := tail, eofbit := tail.isEmpty, failbit := false },
              if sg = '-' then - digitsValue digits else digitsValue digits) := by
  have hs : isspace sg = false := by
    rcases hsg with rfl | rfl <;> decide
  obtain ⟨t1, t2⟩ := takeDrop_digits digits tail hdig htail
  unfold extractInt
  rw [sentry_at_word sg (digits ++ tail) hs]
  have hh2 : sg = '-' ∨ sg = '+' := hsg.symm
  simp [hh2, t1, t2]

theorem extractInt_no_digit (c : Char) (r : List Char) (hs : isspace c = false)
    (hd : c.isDigit = false) (hp : c ≠ '+') (hm : c ≠ '-') :
    (extractInt { buf := c :: r, eofbit := false, failbit := false } 0).1.toBool = false := by
  unfold extractInt
  rw [sentry_at_word c r hs]
  simp [hm, hp, List.takeWhile_cons, hd, IStringStream.toBool]

theorem extractInt_blank (sp : List Char) (hsp : ∀ c ∈ sp, isspace c = true) :
    (extractInt { buf := sp, eofbit := sp.isEmpty, failbit := false } 0).1.toBool = false := by
  have hd := dropWhile_of_all isspace sp hsp
  cases sp with
  | nil => rfl
  | cons c r =>
    simp [extractInt, sentry, IStringStream.good, hd, IStringStream.toBool]

theorem extractInt_arg (sp sign digits tail : List Char)
    (hsp : ∀ c ∈ sp, isspace c = true)
    (hsep : sp = [] → sign ++ digits ++ tail = [])
    (hsign : sign = [] ∨ sign = ['+'] ∨ sign = ['-'])
    (hdig : ∀ c ∈ digits, c.isDigit = true)
    (htail : tail = [] ∨ ∃ c r, tail = c :: r ∧ c.isDigit = false)
    (hbare : sign = [] → digits = [] →
      tail = [] ∨ ∃ c r, tail = c :: r ∧ isspace c = false ∧ c ≠ '+' ∧ c ≠ '-') :
    ((digits = [] ∨ signedValue sign digits < INT_MIN ∨ INT_MAX < signedValue sign digits) →
      (extractInt { buf := sp ++ (sign ++ digits ++ tail),
                    eofbit := (sp ++ (sign ++ digits ++ tail)).isEmpty,
                    failbit := false } 0).1.toBool = false) ∧
    (¬ (digits = [] ∨ signedValue sign digits < INT_MIN ∨ INT_MAX < signedValue sign digits) →
      (extractInt { buf := sp ++ (sign ++ digits ++ tail),
                    eofbit := (sp ++ (sign ++ digits ++ tail)).isEmpty,
                    failbit := false } 0).1.toBool = true ∧
      (extractInt { buf := sp ++ (sign ++ digits ++ tail),
                    eofbit := (sp ++ (sign ++ digits ++ tail)).isEmpty,
                    failbit := false } 0).2 = signedValue sign digits) := by
  by_cases harg : sign ++ digits ++ tail = []
  · have hdn : digits = [] := by
      cases sign <;> cases digits <;> simp_all
    rw [harg, List.append_nil]
    exact ⟨fun _ => extractInt_blank sp hsp, fun h => absurd (Or.inl hdn) h⟩
  · have hspne : sp ≠ [] := fun h => harg (hsep h)
    have he : (sp ++ (sign ++ digits ++ tail)).isEmpty = false := by
      cases sp with
      | nil => exact absurd rfl hspne
      | cons s0 sp1 => rfl
    rw [he]
    rcases hsign with rfl | rfl | rfl
    · cases digits with
      | nil =>
        rcases hbare rfl rfl with rfl | ⟨c, r, rfl, hcs, hcp, hcm⟩
        · exact absurd rfl harg
        · have hcd : c.isDigit = false := by
            rcases htail with h | ⟨c2, r2, h, hd2⟩
            · cases h
            · cases h
              exact hd2
          simp only [List.nil_append]
          rw [extractInt_skip sp c r hsp hcs]
          exact ⟨fun _ => extractInt_no_digit c r hcs hcd hcp hcm,
            fun h => absurd (by simp) h⟩
      | cons d ds =>
        obtain ⟨hds, _, _⟩ := digit_not_space_or_sign d (hdig d (List.mem_cons_self _ _))
        have hu := extractInt_unsigned d ds tail hdig htail
        simp only [List.nil_append, List.cons_append] at hu ⊢
        rw [extractInt_skip sp d (ds ++ tail) hsp hds, hu]
        have hv : signedValue [] (d :: ds) = digitsValue (d :: ds) := by
          simp [signedValue]
        rw [hv]
        constructor
        · rintro (h | h | h)
          · cases h
          · have h2 : ¬ digitsValue (d :: ds) > INT_MAX := by
              unfold INT_MIN INT_MAX at *
              omega
            rw [if_neg h2, if_pos h]
            rfl
          · rw [if_pos h]
            rfl
        · intro h
          have h1 : ¬ digitsValue (d :: ds) > INT_MAX := fun x => h (Or.inr (Or.inr x))
          have h2 : ¬ digitsValue (d :: ds) < INT_MIN := fun x => h (Or.inr (Or.inl x))
          rw [if_neg h1, if_neg h2]
          exact ⟨rfl, rfl⟩
    · have hu := extractInt_signed '+' (Or.inl rfl) digits tail hdig htail
      have hv : signedValue ['+'] digits = digitsValue digits := by
        simp [signedValue]
      have hv2 : (if '+' = '-' then - digitsValue digits else digitsValue digits)
          = digitsValue digits := by
        rw [if_neg (by decide)]
      rw [hv2] at hu
      simp only [List.singleton_append, List.cons_append, List.nil_append] at hu ⊢
      rw [extractInt_skip sp '+' (digits ++ tail) hsp (by decide), hu, hv]
      constructor
      · rintro (h | h | h)
        · rw [if_pos h]
          rfl
        · by_cases hd0 : digits = []
          · rw [if_pos hd0]
            rfl
          · have h2 : ¬ digitsValue digits > INT_MAX := by
              unfold INT_MIN INT_MAX at *
              omega
            rw [if_neg hd0, if_neg h2, if_pos h]
            rfl
        · by_cases hd0 : digits = []
          · rw [if_pos hd0]
            rfl
          · rw [if_neg hd0, if_pos h]
            rfl
      · intro h
        have h0 : ¬ digits = [] := fun x => h (Or.inl x)
        have h1 : ¬ digitsValue digits > INT_MAX := fun x => h (Or.inr (Or.inr x))
        have h2 : ¬ digitsValue digits < INT_MIN := fun x => h (Or.inr (Or.inl x))
        rw [if_neg h0, if_neg h1, if_neg h2]
        exact ⟨rfl, rfl⟩
    · have hu := extractInt_signed '-' (Or.inr rfl) digits tail hdig htail
      have hv : signedValue ['-'] digits = - digitsValue digits := by
        simp [signedValue]
      have hv2 : (if '-' = '-' then - digitsValue digits else digitsValue digits)
          = - digitsValue digits := by
        rw [if_pos rfl]
      rw [hv2] at hu
      simp only [List.singleton_append, List.cons_append, List.nil_append] at hu ⊢
      rw [extractInt_skip sp '-' (digits ++ tail) hsp (by decide), hu, hv]
      constructor
      · rintro (h | h | h)
        · rw [if_pos h]
          rfl
        · by_cases hd0 : digits = []
          · rw [if_pos hd0]
            rfl
          · have h2 : ¬ - digitsValue digits > INT_MAX := by
              unfold INT_MIN INT_MAX at *
              omega
            rw [if_neg hd0, if_neg h2, if_pos h]
            rfl
        · by_cases hd0 : digits = []
          · rw [if_pos hd0]
            rfl
          · rw [if_neg hd0, if_pos h]
            rfl
      · intro h
        have h0 : ¬ digits = [] := fun x => h (Or.inl x)
        have h1 : ¬ - digitsValue digits > INT_MAX := fun x => h (Or.inr (Or.inr x))
        have h2 : ¬ - digitsValue digits < INT_MIN := fun x => h (Or.inr (Or.inl x))
        rw [if_neg h0, if_neg h1, if_neg h2]
        exact ⟨rfl, rfl⟩

/-- C17 as stated fails: `99999999999` is an integer, but on the line
`complete 99999999999` the loop body reports "Please provide a task ID." and does not call
`completeTask(99999999999)`, whose output would be the not-found report for that id. -/
theorem id_argument_out_of_range :
    loopBody 0 TaskManager.init "complete 99999999999"
      = (TaskManager.init, [Out.provideId], false) ∧
    loopBody 0 TaskManager.init "complete 99999999999"
      ≠ ((TaskManager.init.completeTask 99999999999).1,
         (TaskManager.init.completeTask 99999999999).2, false) := by
  constructor
  · decide
  · decide

/-- C17 as amended: a line is optional whitespace, the keyword `complete` or `delete`,
whitespace, and an argument that splits into an optional sign, the longest run of decimal
digits, and a rest.  When there is no digit (nothing after the keyword, or something that
does not start with an optionally signed digit), or the signed value is outside the range
of `int`, the loop body reports "Please provide a task ID.", calls neither operation and
returns the registry it was given.  Otherwise it calls `completeTask`, respectively
`deleteTask`, with exactly the signed value; what follows the digits is ignored. -/
theorem id_argument (now : Int) (m : TaskManager) (command : String) (complete : Bool)
    (pre sp sign digits tail : List Char)
    (hc : command.toList
      = pre ++ (if complete then "complete".toList else "delete".toList) ++ sp
          ++ (sign ++ digits ++ tail))
    (hpre : ∀ c ∈ pre, isspace c = true) (hsp : ∀ c ∈ sp, isspace c = true)
    (hsep : sp = [] → sign ++ digits ++ tail = [])
    (hsign : sign = [] ∨ sign = ['+'] ∨ sign = ['-'])
    (hdig : ∀ c ∈ digits, c.isDigit = true)
    (htail : tail = [] ∨ ∃ c r, tail = c :: r ∧ c.isDigit = false)
    (hbare : sign = [] → digits = [] →
      tail = [] ∨ ∃ c r, tail = c :: r ∧ isspace c = false ∧ c ≠ '+' ∧ c ≠ '-') :
    loopBody now m command =
      if digits = [] ∨ signedValue sign digits < INT_MIN ∨ INT_MAX < signedValue sign digits
      then (m, [Out.provideId], false)
      else if complete then
        ((m.completeTask (signedValue sign digits)).1,
         (m.completeTask (signedValue sign digits)).2, false)
      else
        ((m.deleteTask (signedValue sign digits)).1,
         (m.deleteTask (signedValue sign digits)).2, false) := by
  have hne : command ≠ "" := by
    intro h
    rw [h] at hc
    have := congrArg List.length hc
    cases complete <;> simp at this <;> omega
  have hpost : sp ++ (sign ++ digits ++ tail) = [] ∨
      ∃ c r, sp ++ (sign ++ digits ++ tail) = c :: r ∧ isspace c = true := by
    cases sp with
    | nil => exact Or.inl (by rw [hsep rfl]; rfl)
    | cons s0 sp1 => exact Or.inr ⟨s0, _, rfl, hsp s0 (List.mem_cons_self _ _)⟩
  have hc2 : command.toList
      = pre ++ (if complete then "complete".toList else "delete".toList)
          ++ (sp ++ (sign ++ digits ++ tail)) := by
    rw [hc]
    simp only [List.append_assoc]
  have hE := extractString_word command pre
    (if complete then "complete".toList else "delete".toList)
    (sp ++ (sign ++ digits ++ tail)) hc2 hpre
    (by cases complete <;> decide) (by cases complete <;> decide) hpost
  obtain ⟨hbad, hgood⟩ := extractInt_arg sp sign digits tail hsp hsep hsign hdig htail hbare
  unfold loopBody
  dsimp only
  rw [if_neg hne, hE]
  dsimp only
  by_cases hb : digits = [] ∨ signedValue sign digits < INT_MIN
      ∨ INT_MAX < signedValue sign digits
  · have hf := hbad hb
    rw [if_pos hb]
    cases complete with
    | true =>
      rw [if_neg (by decide), if_neg (by decide), if_neg (by decide), if_neg (by decide),
        if_pos (by decide), hf]
      rfl
    | false =>
      rw [if_neg (by decide), if_neg (by decide), if_neg (by decide), if_neg (by decide),
        if_neg (by decide), if_pos (by decide), hf]
      rfl
  · obtain ⟨ht, hv⟩ := hgood hb
    rw [if_neg hb]
    cases complete with
    | true =>
      rw [if_neg (by decide), if_neg (by decide), if_neg (by decide), if_neg (by decide),
        if_pos (by decide), ht, hv]
      rfl
    | false =>
      rw [if_neg (by decide), if_neg (by decide), if_neg (by decide), if_neg (by decide),
        if_neg (by decide), if_pos (by decide), ht, hv]
      rfl

/-- C17 as amended, at a registry with task 42: `complete 42` calls `completeTask(42)`,
`delete -7x` calls `deleteTask(-7)`, and `complete abc` asks for an id. -/
theorem id_argument_witness :
    loopBody 0 { tasks := [Task.mkTask 42 "a" Priority.MEDIUM 0], nextId := 43 } "complete 42"
      = ({ tasks := [(Task.mkTask 42 "a" Priority.MEDIUM 0).setStatus Status.COMPLETED],
           nextId := 43 }, [Out.taskCompleted 42], false) ∧
    loopBody 0 { tasks := [Task.mkTask 42 "a" Priority.MEDIUM 0], nextId := 43 } "delete -7x"
      = ({ tasks := [Task.mkTask 42 "a" Priority.MEDIUM 0], nextId := 43 },
         [Out.taskNotFound (-7)], false) ∧
    loopBody 0 { tasks := [Task.mkTask 42 "a" Priority.MEDIUM 0], nextId := 43 } "complete abc"
      = ({ tasks := [Task.mkTask 42 "a" Priority.MEDIUM 0], nextId := 43 },
         [Out.provideId], false) :=
  ⟨(id_argument 0 { tasks := [Task.mkTask 42 "a" Priority.MEDIUM 0], nextId := 43 }
      "complete 42" true [] [' '] [] ['4', '2'] []
      (by decide) (by decide) (by decide) (by decide) (by decide) (by decide) (Or.inl rfl)
      (fun _ _ => Or.inl rfl)).trans (by decide),
   (id_argument 0 { tasks := [Task.mkTask 42 "a" Priority.MEDIUM 0], nextId := 43 }
      "delete -7x" false [] [' '] ['-'] ['7'] ['x']
      (by decide) (by decide) (by decide) (by decide) (by decide) (by decide)
      (Or.inr ⟨'x', [], rfl, by decide⟩) (fun h => absurd h (by decide))).trans (by decide),
   (id_argument 0 { tasks := [Task.mkTask 42 "a" Priority.MEDIUM 0], nextId := 43 }
      "complete abc" true [] [' '] [] [] ['a', 'b', 'c']
      (by decide) (by decide) (by decide) (by decide) (by decide) (by decide)
      (Or.inr ⟨'a', ['b', 'c'], rfl, by decide⟩)
      (fun _ _ => Or.inr ⟨'a', ['b', 'c'], rfl, by decide, by decide, by decide⟩)).trans
     (by decide)⟩

/-! ### The loop at the end of input -/

theorem loopBody_break (now : Int) (m : TaskManager) (command : String)
    (h1 : (extractString (IStringStream.open command) "").2 ≠ "exit")
    (h2 : (extractString (IStringStream.open command) "").2 ≠ "quit") :
    (loopBody now m command).2.2 = false := by
  unfold loopBody
  dsimp only
  generalize (extractString (IStringStream.open command) "").2 = cmd at h1 h2 ⊢
  generalize (extractString (IStringStream.open command) "").1 = iss
  have h12 : ¬ (cmd = "exit" ∨ cmd = "quit") := fun h => h.elim h1 h2
  rw [if_neg h12]
  repeat' split
  all_goals rfl

theorem getline_failed (s : IStringStream) (str : String) (h : s.good = false) :
    getline s str = ({ s with failbit := true }, str) := by
  simp [getline, sentry, h]

theorem iteration_stuck (now : Int) (s : MainState) (h : s.cin.good = false) :
    iteration now s
      = ({ cin := { s.cin with failbit := true },
           manager := (loopBody now s.manager s.command).1,
           command := s.command },
         Out.prompt :: (loopBody now s.manager s.command).2.1,
         (loopBody now s.manager s.command).2.2) := by
  simp only [iteration, getline_failed s.cin s.command h]

theorem runLoop_stuck (clock : Nat → Int) (fuel i : Nat) (s : MainState)
    (h : s.cin.good = false)
    (hb : ∀ now m, (loopBody now m s.command).2.2 = false) :
    (runLoop clock fuel i s).2.2 = false := by
  induction fuel generalizing i s with
  | zero => rfl
  | succ n ih =>
    have hit := iteration_stuck (clock i) s h
    have hbr : (iteration (clock i) s).2.2 = false := by
      rw [hit]
      exact hb _ _
    simp only [runLoop, hbr, Bool.false_eq_true, if_false]
    apply ih
    · rw [hit]
      simp [IStringStream.good]
    · rw [hit]
      exact hb

theorem takeDrop_line (l rest : List Char) (hl : ∀ c ∈ l, c ≠ '\n') :
    (l ++ '\n' :: rest).takeWhile (fun c => c != '\n') = l ∧
    (l ++ '\n' :: rest).dropWhile (fun c => c != '\n') = '\n' :: rest := by
  induction l with
  | nil => simp [List.takeWhile_cons, List.dropWhile_cons]
  | cons c cs ih =>
    have hc : c ≠ '\n' := hl c (List.mem_cons_self _ _)
    obtain ⟨i1, i2⟩ := ih (fun x hx => hl x (List.mem_cons_of_mem _ hx))
    simp [List.takeWhile_cons, List.dropWhile_cons, hc, i1, i2]

theorem getline_line (l rest : List Char) (str : String) (hl : ∀ c ∈ l, c ≠ '\n') :
    getline { buf := l ++ '\n' :: rest, eofbit := false, failbit := false } str
      = ({ buf := rest, eofbit := false, failbit := false }, String.mk l) := by
  obtain ⟨t1, t2⟩ := takeDrop_line l rest hl
  simp [getline, sentry, IStringStream.good, t1, t2]

theorem getline_last (l : List Char) (str : String) (hl : ∀ c ∈ l, c ≠ '\n') :
    getline { buf := l, eofbit := false, failbit := false } str
      = ({ buf := [], eofbit := true, failbit := l.isEmpty }, String.mk l) := by
  have hp : ∀ c ∈ l, (fun y => y != '\n') c = true := by
    intro c hc
    simpa using hl c hc
  simp [getline, sentry, IStringStream.good, takeWhile_of_all _ _ hp,
    dropWhile_of_all _ _ hp]

theorem runLoop_never_left (clock : Nat → Int) (lines : List (List Char)) (last : List Char)
    (hlines : ∀ l ∈ lines, (∀ c ∈ l, c ≠ '\n') ∧
      (extractString (IStringStream.open (String.mk l)) "").2 ≠ "exit" ∧
      (extractString (IStringStream.open (String.mk l)) "").2 ≠ "quit")
    (hlast : (∀ c ∈ last, c ≠ '\n') ∧
      (extractString (IStringStream.open (String.mk last)) "").2 ≠ "exit" ∧
      (extractString (IStringStream.open (String.mk last)) "").2 ≠ "quit")
    (fuel i : Nat) (m : TaskManager) (command : String) :
    (runLoop clock fuel i
      { cin := stdinOf ((lines.map (fun l => l ++ ['\n'])).flatten ++ last),
        manager := m, command := command }).2.2 = false := by
  induction lines generalizing fuel i m command with
  | nil =>
    cases fuel with
    | zero => rfl
    | succ n =>
      have hg := getline_last last command hlast.1
      have hbr : ∀ now mm, (loopBody now mm (String.mk last)).2.2 = false :=
        fun now mm => loopBody_break now mm _ hlast.2.1 hlast.2.2
      simp only [List.map_nil, List.flatten_nil, List.nil_append, runLoop, iteration, stdinOf,
        hg, hbr, Bool.false_eq_true, if_false]
      apply runLoop_stuck
      · simp [IStringStream.good]
      · exact hbr
  | cons l ls ih =>
    cases fuel with
    | zero => rfl
    | succ n =>
      have hl := hlines l (List.mem_cons_self _ _)
      have hg := getline_line l ((ls.map (fun l => l ++ ['\n'])).flatten ++ last) command hl.1
      have hbr : ∀ now mm, (loopBody now mm (String.mk l)).2.2 = false :=
        fun now mm => loopBody_break now mm _ hl.2.1 hl.2.2
      have hbuf : ((l :: ls).map (fun l => l ++ ['\n'])).flatten ++ last
          = l ++ '\n' :: ((ls.map (fun l => l ++ ['\n'])).flatten ++ last) := by
        simp
      simp only [runLoop, iteration, stdinOf, hbuf, hg, hbr, Bool.false_eq_true, if_false]
      exact ih (fun x hx => hlines x (List.mem_cons_of_mem _ hx)) n (i + 1) _ _

theorem loopBody_add_x (now : Int) (m : TaskManager) :
    loopBody now m "add x" = ((m.addTask "x" Priority.MEDIUM now).1, [Out.taskAdded], false) :=
  rfl

theorem runLoop_add_x (clock : Nat → Int) (n i : Nat) (s : MainState)
    (h : s.cin.good = false) (hc : s.command = "add x") :
    (runLoop clock n i s).1.manager.tasks.length = s.manager.tasks.length + n := by
  induction n generalizing i s with
  | zero => rfl
  | succ k ih =>
    have hit := iteration_stuck (clock i) s h
    rw [hc, loopBody_add_x] at hit
    simp only [runLoop, hit, Bool.false_eq_true, if_false]
    rw [ih]
    · simp [TaskManager.addTask]
      omega
    · simp [IStringStream.good]
    · rfl

/-- C18: what the code does when the input ends.  For every input made of
newline-terminated lines and a last unterminated piece (empty when the input ends with a
newline), none of which has `exit` or `quit` as its first word, and for every number of
iterations, `main` has not returned after that many iterations of its loop: the loop is
never left.  And on the input `add x` without a final newline the line is run again in
every iteration: after n + 1 iterations the registry holds n + 1 tasks. -/
theorem main_never_returns_at_end_of_input :
    (∀ (clock : Nat → Int) (lines : List (List Char)) (last : List Char),
      (∀ l ∈ lines, (∀ c ∈ l, c ≠ '\n') ∧
        (extractString (IStringStream.open (String.mk l)) "").2 ≠ "exit" ∧
        (extractString (IStringStream.open (String.mk l)) "").2 ≠ "quit") →
      ((∀ c ∈ last, c ≠ '\n') ∧
        (extractString (IStringStream.open (String.mk last)) "").2 ≠ "exit" ∧
        (extractString (IStringStream.open (String.mk last)) "").2 ≠ "quit") →
      ∀ fuel : Nat,
        (main clock fuel ((lines.map (fun l => l ++ ['\n'])).flatten ++ last)).1 = none) ∧
    (∀ (clock : Nat → Int) (n : Nat),
      (runLoop clock (n + 1) 0 (MainState.start "add x".toList)).1.manager.tasks.length
        = n + 1) := by
  constructor
  · intro clock lines last hlines hlast fuel
    have h := runLoop_never_left clock lines last hlines hlast fuel 0 TaskManager.init ""
    simp only [main, MainState.start, h, Bool.false_eq_true, if_false]
  · intro clock n
    have hg := getline_last "add x".toList "" (by decide)
    have hl := loopBody_add_x (clock 0) TaskManager.init
    have hs : String.mk "add x".toList = "add x" := rfl
    simp only [runLoop, iteration, MainState.start, stdinOf, hg, hs, hl, Bool.false_eq_true,
      if_false]
    rw [runLoop_add_x]
    · simp [TaskManager.addTask, TaskManager.init]
      omega
    · simp [IStringStream.good]
    · rfl

/-- C18, at the input `list` followed by a newline and the end of input, and at the empty
input: `main` has not returned after any number of iterations. -/
theorem main_never_returns_at_end_of_input_witness :
    (∀ fuel : Nat, (main (fun _ => 0) fuel "list\n".toList).1 = none) ∧
    (∀ fuel : Nat, (main (fun _ => 0) fuel []).1 = none) :=
  ⟨fun fuel => main_never_returns_at_end_of_input.1 (fun _ => 0) ["list".toList] []
      (by decide) (by decide) fuel,
   fun fuel => main_never_returns_at_end_of_input.1 (fun _ => 0) [] []
      (by decide) (by decide) fuel⟩

/-! ### The 32-bit counter -/

theorem wrapInt32_of_range (x : Int) (h1 : INT_MIN ≤ x) (h2 : x ≤ INT_MAX) :
    wrapInt32 x = x := by
  unfold wrapInt32
  unfold INT_MIN at h1
  unfold INT_MAX at h2
  omega

theorem wrapInt32_succ_of_lt (n : Nat) (h : n < 2147483647) :
    wrapInt32 ((n : Int) + 1) = (n : Int) + 1 := by
  unfold wrapInt32
  omega

theorem countAdds_append (a b : List Op) : countAdds (a ++ b) = countAdds a + countAdds b := by
  induction a with
  | nil => simp [countAdds]
  | cons x xs ih =>
    rw [List.cons_append, countAdds_cons x (xs ++ b), countAdds_cons x xs, ih]
    omega

theorem runOps_snoc_addTask (m : TaskManager) (pre : List Op) (title : String)
    (priority : Priority) (now : Int) :
    runOps m (pre ++ [Op.addTask title priority now])
      = { tasks := (runOps m pre).tasks
            ++ [Task.mkTask (runOps m pre).nextId title priority now],
          nextId := wrapInt32 ((runOps m pre).nextId + 1) } := by
  rw [runOps_append]
  rfl

theorem call_idsUpTo (m : TaskManager) (n : Nat) (op : Op) (h : idsUpTo m n)
    (hb : n + countAdds [op] ≤ 2147483647) :
    idsUpTo (m.call op).1 (n + countAdds [op]) := by
  obtain ⟨hp, hr, hl, hn⟩ := h
  cases op with
  | addTask title priority now =>
    have hc : countAdds [Op.addTask title priority now] = 1 := rfl
    rw [hc] at hb ⊢
    have hnext : m.nextId = (n : Int) + 1 := by
      rw [hn]
      exact wrapInt32_succ_of_lt n (by omega)
    refine ⟨?_, ?_, ?_, ?_⟩
    · simp only [TaskManager.call, TaskManager.addTask, List.map_append, List.map_cons,
        List.map_nil, Task.mkTask]
      rw [List.pairwise_append]
      refine ⟨hp, List.pairwise_singleton _ _, ?_⟩
      intro a ha b hb1
      rw [List.mem_singleton] at hb1
      have := (hr a ha).2
      omega
    · intro i hi
      simp only [TaskManager.call, TaskManager.addTask, List.map_append, List.map_cons,
        List.map_nil, Task.mkTask, List.mem_append, List.mem_singleton] at hi
      push_cast
      rcases hi with hi | rfl
      · have := hr i hi
        omega
      · omega
    · simp only [TaskManager.call, TaskManager.addTask, List.length_append,
        List.length_cons, List.length_nil]
      omega
    · simp only [TaskManager.call, TaskManager.addTask]
      rw [hnext]
      push_cast
      rfl
  | listTasks f => exact ⟨hp, hr, hl, hn⟩
  | completeTask id =>
    have hc : countAdds [Op.completeTask id] = 0 := rfl
    rw [hc, Nat.add_zero]
    simp only [TaskManager.call, TaskManager.completeTask]
    cases hcl : completeLoop id m.tasks with
    | none => exact ⟨hp, hr, hl, hn⟩
    | some r =>
      have hid := completeLoop_map_id id m.tasks r hcl
      have hlen := congrArg List.length hid
      simp only [List.length_map] at hlen
      refine ⟨?_, ?_, ?_, hn⟩
      · show (r.map Task.id).Pairwise _
        rw [hid]
        exact hp
      · show ∀ i ∈ r.map Task.id, _
        rw [hid]
        exact hr
      · show r.length ≤ n
        omega
  | deleteTask id =>
    have hc : countAdds [Op.deleteTask id] = 0 := rfl
    rw [hc, Nat.add_zero]
    have hsub : ((m.deleteTask id).1.tasks.map Task.id).Sublist (m.tasks.map Task.id) := by
      rw [deleteTask_tasks]
      exact List.Sublist.map _ (List.filter_sublist _)
    have hlen : (m.deleteTask id).1.tasks.length ≤ m.tasks.length := by
      rw [deleteTask_tasks]
      exact List.length_filter_le _ _
    refine ⟨hp.sublist hsub, fun i hi => hr i (hsub.subset hi), ?_, ?_⟩
    · simp only [TaskManager.call]
      omega
    · simp only [TaskManager.call, deleteTask_nextId]
      exact hn
  | showStats => exact ⟨hp, hr, hl, hn⟩

theorem runOps_idsUpTo (m : TaskManager) (n : Nat) (ops : List Op) (h : idsUpTo m n)
    (hb : n + countAdds ops ≤ 2147483647) :
    idsUpTo (runOps m ops) (n + countAdds ops) := by
  induction ops generalizing m n with
  | nil => exact h
  | cons op rest ih =>
    have hc := countAdds_cons op rest
    have h1 := call_idsUpTo m n op h (by omega)
    have h2 := ih (m.call op).1 (n + countAdds [op]) h1 (by omega)
    rw [hc, ← Nat.add_assoc]
    exact h2

theorem init_idsUpTo : idsUpTo TaskManager.init 0 := by
  refine ⟨?_, ?_, ?_, ?_⟩
  · simp [TaskManager.init]
  · intro i hi
    simp [TaskManager.init] at hi
  · simp [TaskManager.init]
  · simp [TaskManager.init, wrapInt32]

theorem reached_idsUpTo (ops : List Op) (h : countAdds ops ≤ 2147483647) :
    idsUpTo (runOps TaskManager.init ops) (countAdds ops) := by
  have := runOps_idsUpTo TaskManager.init 0 ops init_idsUpTo (by omega)
  simpa using this

theorem reached_nextId (ops : List Op) (h : countAdds ops ≤ 2147483646) :
    (runOps TaskManager.init ops).nextId = (countAdds ops : Int) + 1 := by
  rw [(reached_idsUpTo ops (by omega)).2.2.2]
  exact wrapInt32_succ_of_lt _ (by omega)

theorem reached_idsAscending (ops : List Op) (h : countAdds ops ≤ 2147483646) :
    idsAscending (runOps TaskManager.init ops) := by
  obtain ⟨hp, hr, _, _⟩ := reached_idsUpTo ops (by omega)
  have hn := reached_nextId ops h
  refine ⟨hp, ?_, ?_⟩
  · intro i hi
    have := hr i hi
    omega
  · omega

theorem countAdds_churn (n : Nat) : countAdds (churn n) = n := by
  induction n with
  | zero => rfl
  | succ k ih =>
    rw [churn, countAdds_append, ih]
    rfl

theorem runOps_churn (n : Nat) (h : n ≤ 2147483647) :
    runOps TaskManager.init (churn n)
      = { tasks := [], nextId := wrapInt32 ((n : Int) + 1) } := by
  induction n with
  | zero => simp [churn, runOps, TaskManager.init, wrapInt32]
  | succ k ih =>
    rw [churn, runOps_append, ih (by omega), wrapInt32_succ_of_lt k (by omega)]
    simp [runOps, TaskManager.call, TaskManager.addTask, TaskManager.deleteTask, remove_if,
      Task.mkTask, Task.getId]

/-! ### The claims that depend on the counter -/

/-- C1 as stated fails: after 2147483647 rounds of adding a task and deleting it, the next
`addTask` call is the 2147483648th of the sequence, and the task it creates has id
-2147483648, not 2147483648. -/
theorem addTask_id_wraps_after_int_max :
    countAdds (churn 2147483647) = 2147483647 ∧
    (runOps TaskManager.init (churn 2147483647 ++ [Op.addTask "x" Priority.MEDIUM 0])).tasks
      = [Task.mkTask (-2147483648) "x" Priority.MEDIUM 0] ∧
    (runOps TaskManager.init (churn 2147483647 ++ [Op.addTask "x" Priority.MEDIUM 0])).tasks
      ≠ (runOps TaskManager.init (churn 2147483647)).tasks
          ++ [Task.mkTask ((countAdds (churn 2147483647) : Int) + 1) "x" Priority.MEDIUM 0] := by
  have hw : wrapInt32 (((2147483647 : Nat) : Int) + 1) = -2147483648 := by
    simp [wrapInt32]
  have h1 : (runOps TaskManager.init
      (churn 2147483647 ++ [Op.addTask "x" Priority.MEDIUM 0])).tasks
      = [Task.mkTask (-2147483648) "x" Priority.MEDIUM 0] := by
    rw [runOps_snoc_addTask, runOps_churn 2147483647 (le_refl _), hw]
    rfl
  refine ⟨countAdds_churn _, h1, ?_⟩
  rw [h1, runOps_churn 2147483647 (le_refl _), countAdds_churn]
  simp [Task.mkTask]

/-- C1 as amended: starting from the empty registry with counter 1, after any sequence
`pre` of registry calls that holds fewer than 2147483647 `addTask` calls, a further
`addTask` call appends a task whose id is the number of `addTask` calls in `pre` plus one:
the k-th `addTask` call of a sequence creates the task with id k for every k up to
2147483647, whatever was deleted or completed in between. -/
theorem addTask_kth_call_assigns_id_k (pre : List Op) (title : String) (priority : Priority)
    (now : Int) (h : countAdds pre < 2147483647) :
    (runOps TaskManager.init (pre ++ [Op.addTask title priority now])).tasks
      = (runOps TaskManager.init pre).tasks
          ++ [Task.mkTask ((countAdds pre : Int) + 1) title priority now] := by
  rw [runOps_snoc_addTask, reached_nextId pre (by omega)]

/-- C1 as amended, after an addition, a deletion and an addition: the third `addTask`
call creates the task with id 3. -/
theorem addTask_kth_call_assigns_id_k_witness :
    countAdds [Op.addTask "a" Priority.MEDIUM 0, Op.deleteTask 1,
               Op.addTask "b" Priority.HIGH 0] < 2147483647 ∧
    (runOps TaskManager.init
        ([Op.addTask "a" Priority.MEDIUM 0, Op.deleteTask 1, Op.addTask "b" Priority.HIGH 0]
          ++ [Op.addTask "c" Priority.LOW 5])).tasks
      = (runOps TaskManager.init
          [Op.addTask "a" Priority.MEDIUM 0, Op.deleteTask 1,
           Op.addTask "b" Priority.HIGH 0]).tasks
          ++ [Task.mkTask
                ((countAdds [Op.addTask "a" Priority.MEDIUM 0, Op.deleteTask 1,
                             Op.addTask "b" Priority.HIGH 0] : Int) + 1)
                "c" Priority.LOW 5] ∧
    (countAdds [Op.addTask "a" Priority.MEDIUM 0, Op.deleteTask 1,
                Op.addTask "b" Priority.HIGH 0] : Int) + 1 = 3 :=
  ⟨by decide,
   addTask_kth_call_assigns_id_k _ "c" Priority.LOW 5 (by decide),
   by decide⟩

/-- C7 as stated fails: after 2147483646 rounds of adding a task and deleting it and one
more addition, the registry holds the task with id 2147483647 while the counter is
-2147483648, so that id is not below the counter. -/
theorem id_not_below_counter_after_int_max :
    runOps TaskManager.init (churn 2147483646 ++ [Op.addTask "x" Priority.MEDIUM 0])
      = { tasks := [Task.mkTask 2147483647 "x" Priority.MEDIUM 0], nextId := -2147483648 } ∧
    ¬ (∀ t ∈ (runOps TaskManager.init
          (churn 2147483646 ++ [Op.addTask "x" Priority.MEDIUM 0])).tasks,
        1 ≤ t.id ∧ t.id < (runOps TaskManager.init
          (churn 2147483646 ++ [Op.addTask "x" Priority.MEDIUM 0])).nextId) := by
  have hw : wrapInt32 (((2147483646 : Nat) : Int) + 1) = 2147483647 := by
    simp [wrapInt32]
  have hw2 : wrapInt32 (2147483647 + 1) = -2147483648 := by
    simp [wrapInt32]
  have h1 : runOps TaskManager.init (churn 2147483646 ++ [Op.addTask "x" Priority.MEDIUM 0])
      = { tasks := [Task.mkTask 2147483647 "x" Priority.MEDIUM 0],
          nextId := -2147483648 } := by
    rw [runOps_snoc_addTask, runOps_churn 2147483646 (by omega), hw]
    simp only [List.nil_append, hw2]
  refine ⟨h1, ?_⟩
  rw [h1]
  intro h
  have := (h _ (List.mem_singleton.mpr rfl)).2
  simp [Task.mkTask] at this

/-- C7 as amended: in a registry reached from the empty one by registry calls of which at
most 2147483647 are `addTask` calls, the ids of the tasks are pairwise distinct and each is
at least 1; with at most 2147483646 `addTask` calls each id is also strictly below the
counter; and as long as no more than 2147483647 tasks are created in all, the task created
by an `addTask` call has a strictly smaller id than the task created by any later `addTask`
call, whatever calls (deletions included) lie in between, so no id is assigned twice. -/
theorem ids_unique_and_never_reused (ops mid : List Op) (title title2 : String)
    (priority priority2 : Priority) (now now2 : Int) :
    (countAdds ops ≤ 2147483647 →
      ((runOps TaskManager.init ops).tasks.map Task.id).Nodup ∧
      ∀ t ∈ (runOps TaskManager.init ops).tasks, 1 ≤ t.id) ∧
    (countAdds ops ≤ 2147483646 →
      ∀ t ∈ (runOps TaskManager.init ops).tasks,
        t.id < (runOps TaskManager.init ops).nextId) ∧
    (countAdds ops + countAdds mid + 2 ≤ 2147483647 →
      ∃ t1 t2,
        (runOps TaskManager.init (ops ++ [Op.addTask title priority now])).tasks.getLast?
          = some t1 ∧
        (runOps TaskManager.init
          ((ops ++ [Op.addTask title priority now]) ++ mid
            ++ [Op.addTask title2 priority2 now2])).tasks.getLast? = some t2 ∧
        t1.id = (runOps TaskManager.init ops).nextId ∧ t1.id < t2.id) := by
  refine ⟨?_, ?_, ?_⟩
  · intro h
    obtain ⟨hp, hr, _, _⟩ := reached_idsUpTo ops h
    exact ⟨hp.imp (fun h => ne_of_lt h), fun t ht => (hr t.id (List.mem_map_of_mem _ ht)).1⟩
  · intro h t ht
    exact ((reached_idsAscending ops h).2.1 t.id (List.mem_map_of_mem _ ht)).2
  · intro h
    have hc : countAdds ((ops ++ [Op.addTask title priority now]) ++ mid)
        = countAdds ops + 1 + countAdds mid := by
      rw [countAdds_append, countAdds_append]
      rfl
    have hn1 := reached_nextId ops (by omega)
    have hn2 := reached_nextId ((ops ++ [Op.addTask title priority now]) ++ mid) (by omega)
    refine ⟨Task.mkTask (runOps TaskManager.init ops).nextId title priority now,
      Task.mkTask (runOps TaskManager.init
        ((ops ++ [Op.addTask title priority now]) ++ mid)).nextId title2 priority2 now2,
      ?_, ?_, rfl, ?_⟩
    · rw [runOps_snoc_addTask]
      simp
    · rw [runOps_snoc_addTask]
      simp
    · simp only [Task.mkTask, hn1, hn2, hc]
      push_cast
      omega

/-- C7 as amended, at an addition, a deletion, and two more additions with a completion
in between. -/
theorem ids_unique_and_never_reused_witness :
    ((runOps TaskManager.init [Op.addTask "a" Priority.MEDIUM 0, Op.deleteTask 1]).tasks.map
        Task.id).Nodup ∧
    (∀ t ∈ (runOps TaskManager.init [Op.addTask "a" Priority.MEDIUM 0, Op.deleteTask 1]).tasks,
      t.id < (runOps TaskManager.init
        [Op.addTask "a" Priority.MEDIUM 0, Op.deleteTask 1]).nextId) ∧
    (∃ t1 t2,
      (runOps TaskManager.init
        ([Op.addTask "a" Priority.MEDIUM 0, Op.deleteTask 1]
          ++ [Op.addTask "b" Priority.LOW 1])).tasks.getLast? = some t1 ∧
      (runOps TaskManager.init
        (([Op.addTask "a" Priority.MEDIUM 0, Op.deleteTask 1]
          ++ [Op.addTask "b" Priority.LOW 1]) ++ [Op.completeTask 2]
          ++ [Op.addTask "c" Priority.HIGH 2])).tasks.getLast? = some t2 ∧
      t1.id = (runOps TaskManager.init
        [Op.addTask "a" Priority.MEDIUM 0, Op.deleteTask 1]).nextId ∧ t1.id < t2.id) :=
  ⟨((ids_unique_and_never_reused [Op.addTask "a" Priority.MEDIUM 0, Op.deleteTask 1]
      [Op.completeTask 2] "b" "c" Priority.LOW Priority.HIGH 1 2).1 (by decide)).1,
   (ids_unique_and_never_reused [Op.addTask "a" Priority.MEDIUM 0, Op.deleteTask 1]
      [Op.completeTask 2] "b" "c" Priority.LOW Priority.HIGH 1 2).2.1 (by decide),
   (ids_unique_and_never_reused [Op.addTask "a" Priority.MEDIUM 0, Op.deleteTask 1]
      [Op.completeTask 2] "b" "c" Priority.LOW Priority.HIGH 1 2).2.2 (by decide)⟩

theorem loopBody_add_line (now : Int) (m : TaskManager) (command : String)
    (pre sp rest : List Char) (c : Char)
    (hc : command.toList = pre ++ "add".toList ++ sp ++ c :: rest)
    (hpre : ∀ x ∈ pre, isspace x = true) (hsp : ∀ x ∈ sp, isspace x = true) (hsp0 : sp ≠ [])
    (hcn : isspace c = false) (hnl : ∀ x ∈ rest, x ≠ '\n') :
    loopBody now m command =
      ({ tasks := m.tasks ++
          [{ id := m.nextId, title := String.mk (c :: rest), description := "",
             priority := Priority.MEDIUM, status := Status.ACTIVE, tags := [],
             created := now, deadline := 0 }],
         nextId := wrapInt32 (m.nextId + 1) }, [Out.taskAdded], false) := by
  have hne : command ≠ "" := by
    intro h
    rw [h] at hc
    have := congrArg List.length hc
    simp at this
    omega
  obtain ⟨s0, sp1, rfl⟩ := List.exists_cons_of_ne_nil hsp0
  have hs0 : isspace s0 = true := hsp s0 (List.mem_cons_self _ _)
  have hc2 : command.toList = pre ++ "add".toList ++ (s0 :: (sp1 ++ c :: rest)) := by
    rw [hc]
    simp
  have hE := extractString_word command pre "add".toList (s0 :: (sp1 ++ c :: rest)) hc2 hpre
    (by decide) (by decide) (Or.inr ⟨s0, _, rfl, hs0⟩)
  have hdrop : (s0 :: (sp1 ++ c :: rest)).dropWhile isspace = c :: rest := by
    have := dropWhile_append_of_all isspace (s0 :: sp1) (c :: rest) hsp
    rw [List.cons_append] at this
    rw [this]
    simp [List.dropWhile_cons, hcn]
  have hcnl : ∀ x ∈ c :: rest, (fun y => y != '\n') x = true := by
    intro x hx
    have hx2 : x ≠ '\n' := by
      cases hx with
      | head =>
        intro e
        rw [e] at hcn
        exact absurd hcn (by decide)
      | tail _ hm => exact hnl x hm
    simpa using hx2
  have hT : (getline (ws ⟨s0 :: (sp1 ++ c :: rest),
      (s0 :: (sp1 ++ c :: rest)).isEmpty, false⟩) "").2 = String.mk (c :: rest) := by
    simp only [ws, sentry, IStringStream.good, List.isEmpty_cons, Bool.not_false,
      Bool.and_self, Bool.not_true, Bool.false_eq_true, if_false, if_true, hdrop, getline,
      takeWhile_of_all _ _ hcnl, dropWhile_of_all _ _ hcnl]
  have hTne : String.mk (c :: rest) ≠ "" := by
    intro h
    have := congrArg String.length h
    simp at this
  unfold loopBody
  dsimp only
  rw [if_neg hne, hE]
  dsimp only
  rw [if_neg (by decide), if_neg (by decide), if_pos (by decide), hT]
  rw [if_pos hTne]
  rfl

/-- C13 as stated fails: the registry with no task and counter 2147483647 is reached by
2147483646 rounds of adding a task and deleting it; on the line `add x` the new task gets
id 2147483647 and the counter becomes -2147483648, not 2147483648. -/
theorem add_at_int_max_wraps_counter :
    runOps TaskManager.init (churn 2147483646) = { tasks := [], nextId := 2147483647 } ∧
    loopBody 0 { tasks := [], nextId := 2147483647 } "add x"
      = ({ tasks := [Task.mkTask 2147483647 "x" Priority.MEDIUM 0], nextId := -2147483648 },
         [Out.taskAdded], false) ∧
    (loopBody 0 { tasks := [], nextId := 2147483647 } "add x").1.nextId ≠ 2147483647 + 1 := by
  have hw : wrapInt32 (((2147483646 : Nat) : Int) + 1) = 2147483647 := by
    simp [wrapInt32]
  refine ⟨?_, by decide, by decide⟩
  rw [runOps_churn 2147483646 (by omega), hw]

/-- C13 as amended: for every registry whose counter is an `int` below 2147483647 and
every line that consists of optional whitespace, the keyword `add`, whitespace, and a rest
that starts with a non-whitespace character (a line holds no newline), the loop body
appends one task: id the old counter, title the rest of the line from that character on,
priority `MEDIUM`, status `ACTIVE`, no tags; the counter is incremented by one, the tasks
that were there are unchanged, the confirmation is the output, and the loop goes on. -/
theorem add_with_title (now : Int) (m : TaskManager) (command : String)
    (pre sp rest : List Char) (c : Char)
    (hc : command.toList = pre ++ "add".toList ++ sp ++ c :: rest)
    (hpre : ∀ x ∈ pre, isspace x = true) (hsp : ∀ x ∈ sp, isspace x = true) (hsp0 : sp ≠ [])
    (hcn : isspace c = false) (hnl : ∀ x ∈ rest, x ≠ '\n')
    (hlo : INT_MIN ≤ m.nextId) (hhi : m.nextId < INT_MAX) :
    loopBody now m command =
      ({ tasks := m.tasks ++
          [{ id := m.nextId, title := String.mk (c :: rest), description := "",
             priority := Priority.MEDIUM, status := Status.ACTIVE, tags := [],
             created := now, deadline := 0 }],
         nextId := m.nextId + 1 }, [Out.taskAdded], false) := by
  rw [loopBody_add_line now m command pre sp rest c hc hpre hsp hsp0 hcn hnl,
    wrapInt32_of_range (m.nextId + 1) (by omega) (by omega)]

/-- C13 as amended, at the fresh registry and the line `add  Write report`. -/
theorem add_with_title_witness :
    loopBody 7 TaskManager.init "add  Write report" =
      ({ tasks :=
          [{ id := 1, title := "Write report", description := "",
             priority := Priority.MEDIUM, status := Status.ACTIVE, tags := [],
             created := 7, deadline := 0 }],
         nextId := 2 }, [Out.taskAdded], false) :=
  add_with_title 7 TaskManager.init "add  Write report" [] [' ', ' '] "rite report".toList 'W'
    (by decide) (by decide) (by decide) (by decide) (by decide) (by decide) (by decide)
    (by decide)

/-- C19 as stated fails: after 2147483646 rounds of adding a task and deleting it and two
more additions, the task list holds the ids 2147483647 and -2147483648 in this order, which
is not ascending, and its length 2 is not at most the counter -2147483647 minus one. -/
theorem task_list_not_ascending_after_int_max :
    runOps TaskManager.init
        (churn 2147483646
          ++ [Op.addTask "x" Priority.MEDIUM 0, Op.addTask "y" Priority.MEDIUM 0])
      = { tasks := [Task.mkTask 2147483647 "x" Priority.MEDIUM 0,
                    Task.mkTask (-2147483648) "y" Priority.MEDIUM 0],
          nextId := -2147483647 } ∧
    ¬ ((runOps TaskManager.init
        (churn 2147483646
          ++ [Op.addTask "x" Priority.MEDIUM 0, Op.addTask "y" Priority.MEDIUM 0])).tasks.map
        Task.id).Pairwise (fun a b => a < b) ∧
    ¬ (((runOps TaskManager.init
        (churn 2147483646
          ++ [Op.addTask "x" Priority.MEDIUM 0,
              Op.addTask "y" Priority.MEDIUM 0])).tasks.length : Int)
        ≤ (runOps TaskManager.init
            (churn 2147483646
              ++ [Op.addTask "x" Priority.MEDIUM 0,
                  Op.addTask "y" Priority.MEDIUM 0])).nextId - 1) := by
  have hw : wrapInt32 (((2147483646 : Nat) : Int) + 1) = 2147483647 := by
    simp [wrapInt32]
  have hw2 : wrapInt32 (2147483647 + 1) = -2147483648 := by
    simp [wrapInt32]
  have hw3 : wrapInt32 (-2147483648 + 1) = -2147483647 := by
    simp [wrapInt32]
  have h1 : runOps TaskManager.init
      (churn 2147483646
        ++ [Op.addTask "x" Priority.MEDIUM 0, Op.addTask "y" Priority.MEDIUM 0])
      = { tasks := [Task.mkTask 2147483647 "x" Priority.MEDIUM 0,
                    Task.mkTask (-2147483648) "y" Priority.MEDIUM 0],
          nextId := -2147483647 } := by
    rw [runOps_append, runOps_churn 2147483646 (by omega), hw]
    simp only [runOps, TaskManager.call, TaskManager.addTask, List.nil_append,
      List.singleton_append, hw2, hw3]
  refine ⟨h1, ?_, ?_⟩
  · rw [h1]
    simp [Task.mkTask]
  · rw [h1]
    simp

/-- C19 as amended: in a registry reached from the empty one by `addTask`, `completeTask`
and `deleteTask` calls (and the read-only `listTasks` and `showStats`) of which at most
2147483647 are `addTask` calls, the ids along the task list are strictly ascending, and so
are the ids of the tasks that a listing with any filter displays; with at most 2147483646
`addTask` calls the number of tasks is at most the counter minus one. -/
theorem tasks_ascending_by_id (ops : List Op) (f : Status) :
    (countAdds ops ≤ 2147483647 →
      ((runOps TaskManager.init ops).tasks.map Task.id).Pairwise (fun a b => a < b) ∧
      ((displayedTasks ((runOps TaskManager.init ops).listTasks f)).map Task.id).Pairwise
        (fun a b => a < b)) ∧
    (countAdds ops ≤ 2147483646 →
      ((runOps TaskManager.init ops).tasks.length : Int)
        ≤ (runOps TaskManager.init ops).nextId - 1) := by
  constructor
  · intro h
    obtain ⟨hp, _, _, _⟩ := reached_idsUpTo ops h
    refine ⟨hp, ?_⟩
    rw [displayedTasks_listTasks]
    exact hp.sublist (List.Sublist.map _ (List.filter_sublist _))
  · intro h
    obtain ⟨_, _, hl, _⟩ := reached_idsUpTo ops (by omega)
    have hn := reached_nextId ops h
    omega

/-- C19 as amended, after two additions, a completion, a deletion and an addition. -/
theorem tasks_ascending_by_id_witness :
    (((runOps TaskManager.init
        [Op.addTask "a" Priority.MEDIUM 0, Op.addTask "b" Priority.MEDIUM 0,
         Op.completeTask 2, Op.deleteTask 1, Op.addTask "c" Priority.MEDIUM 0]).tasks.map
        Task.id).Pairwise (fun a b => a < b) ∧
      ((displayedTasks ((runOps TaskManager.init
        [Op.addTask "a" Priority.MEDIUM 0, Op.addTask "b" Priority.MEDIUM 0,
         Op.completeTask 2, Op.deleteTask 1,
         Op.addTask "c" Priority.MEDIUM 0]).listTasks Status.ARCHIVED)).map
        Task.id).Pairwise (fun a b => a < b)) ∧
    ((runOps TaskManager.init
        [Op.addTask "a" Priority.MEDIUM 0, Op.addTask "b" Priority.MEDIUM 0,
         Op.completeTask 2, Op.deleteTask 1,
         Op.addTask "c" Priority.MEDIUM 0]).tasks.length : Int)
      ≤ (runOps TaskManager.init
          [Op.addTask "a" Priority.MEDIUM 0, Op.addTask "b" Priority.MEDIUM 0,
           Op.completeTask 2, Op.deleteTask 1, Op.addTask "c" Priority.MEDIUM 0]).nextId - 1 :=
  ⟨(tasks_ascending_by_id _ Status.ARCHIVED).1 (by decide),
   (tasks_ascending_by_id
      [Op.addTask "a" Priority.MEDIUM 0, Op.addTask "b" Priority.MEDIUM 0,
       Op.completeTask 2, Op.deleteTask 1, Op.addTask "c" Priority.MEDIUM 0]
      Status.ARCHIVED).2 (by decide)⟩

theorem runLines_eq_runOps_bounded (m : TaskManager) (lines : List (Int × String)) :
    ∃ ops, runLines m lines = runOps m ops ∧ countAdds ops ≤ lines.length := by
  induction lines generalizing m with
  | nil => exact ⟨[], rfl, Nat.le_refl _⟩
  | cons l rest ih =>
    obtain ⟨now, command⟩ := l
    have hstep : ∃ ops1, (loopBody now m command).1 = runOps m ops1 ∧ countAdds ops1 ≤ 1 := by
      rcases loopBody_registry now m command with h | ⟨op, h⟩
      · exact ⟨[], h, Nat.zero_le _⟩
      · refine ⟨[op], h, ?_⟩
        cases op <;> simp [countAdds]
    obtain ⟨ops1, h1, c1⟩ := hstep
    simp only [runLines, List.length_cons]
    split_ifs
    · exact ⟨ops1, h1, by omega⟩
    · obtain ⟨ops2, h2, c2⟩ := ih (loopBody now m command).1
      refine ⟨ops1 ++ ops2, by rw [h2, h1, runOps_append], ?_⟩
      rw [countAdds_append]
      omega

theorem runLines_idsAscending (lines : List (Int × String))
    (h : lines.length ≤ 2147483646) : idsAscending (runLines TaskManager.init lines) := by
  obtain ⟨ops, he, hc⟩ := runLines_eq_runOps_bounded TaskManager.init lines
  rw [he]
  exact reached_idsAscending ops (by omega)

/-- C12: in every registry reached from the empty one by input lines run through the
command loop, every task has a non-empty title.  No line changes a title: for every
registry, the ids and titles after a line are, in order, those of a subsequence of the
tasks before, or those of all the tasks before followed by the id and non-empty title of
one new task.  And in a registry reached by at most 2147483646 lines, where ids are
distinct, a task that is still present after the next line (same id) has the title it had
before. -/
theorem titles_non_empty_and_fixed (lines : List (Int × String)) (now : Int)
    (command : String) (m : TaskManager) :
    (∀ t ∈ (runLines TaskManager.init lines).tasks, t.title ≠ "") ∧
    ((∃ kept : List Task, kept.Sublist m.tasks ∧
        (loopBody now m command).1.tasks.map (fun t => (t.id, t.title))
          = kept.map (fun t => (t.id, t.title))) ∨
      (∃ title : String, title ≠ "" ∧
        (loopBody now m command).1.tasks.map (fun t => (t.id, t.title))
          = m.tasks.map (fun t => (t.id, t.title)) ++ [(m.nextId, title)])) ∧
    (lines.length ≤ 2147483646 →
      ∀ t ∈ (runLines TaskManager.init lines).tasks,
        ∀ u ∈ (loopBody now (runLines TaskManager.init lines) command).1.tasks,
          u.id = t.id → u.title = t.title) := by
  refine ⟨runLines_titles _ _ (by intro t ht; cases ht), ?_, ?_⟩
  · rcases loopBody_tasks now m command with
      e | ⟨_, title, htitle, e⟩ | ⟨_, pre, t0, post, hl, e⟩ | ⟨_, id, e⟩
    · exact Or.inl ⟨m.tasks, List.Sublist.refl _, by rw [e]⟩
    · refine Or.inr ⟨title, htitle, ?_⟩
      rw [e]
      simp [Task.mkTask]
    · refine Or.inl ⟨m.tasks, List.Sublist.refl _, ?_⟩
      rw [e, hl]
      simp
    · refine Or.inl ⟨m.tasks.filter (fun t => decide (t.id ≠ id)), List.filter_sublist _, ?_⟩
      rw [e]
  · intro hlen t ht u hu hid
    have hasc := runLines_idsAscending lines hlen
    generalize runLines TaskManager.init lines = m0 at ht hu hasc
    have same : u ∈ m0.tasks → u.title = t.title := by
      intro hum
      rw [same_task_of_same_id m0 hasc t u ht hum hid]
    rcases loopBody_tasks now m0 command with
      e | ⟨_, title, _, e⟩ | ⟨_, pre, t0, post, hl, e⟩ | ⟨_, id, e⟩
    · rw [e] at hu
      exact same hu
    · rw [e] at hu
      simp only [List.mem_append, List.mem_singleton] at hu
      rcases hu with hu | rfl
      · exact same hu
      · have := (hasc.2.1 t.id (List.mem_map_of_mem _ ht)).2
        simp only [Task.mkTask] at hid
        omega
    · rw [e] at hu
      simp only [List.mem_append, List.mem_cons] at hu
      have ht0 : t0 ∈ m0.tasks := by
        rw [hl]
        exact List.mem_append_right _ (List.mem_cons_self _ _)
      rcases hu with hu | rfl | hu
      · exact same (by rw [hl]; exact List.mem_append_left _ hu)
      · have e0 := same_task_of_same_id m0 hasc t t0 ht ht0 hid
        rw [e0]
      · exact same (by rw [hl]; exact List.mem_append_right _ (List.mem_cons_of_mem _ hu))
    · rw [e] at hu
      exact same (List.mem_filter.mp hu).1

/-- C12, after the lines `add a` and `add b` and for the next line `complete 1`. -/
theorem titles_non_empty_and_fixed_witness :
    (∀ t ∈ (runLines TaskManager.init [(0, "add a"), (1, "add b")]).tasks, t.title ≠ "") ∧
    (∀ t ∈ (runLines TaskManager.init [(0, "add a"), (1, "add b")]).tasks,
      ∀ u ∈ (loopBody 2 (runLines TaskManager.init [(0, "add a"), (1, "add b")])
              "complete 1").1.tasks,
        u.id = t.id → u.title = t.title) :=
  ⟨(titles_non_empty_and_fixed [(0, "add a"), (1, "add b")] 2 "complete 1"
      TaskManager.init).1,
   (titles_non_empty_and_fixed [(0, "add a"), (1, "add b")] 2 "complete 1"
      TaskManager.init).2.2 (by decide)⟩

end TaskFlow
